import Mathlib

/-!
Verification development for the miden-base account-state and transaction
subsystem. Rust sources are shallowly embedded: machine field elements
become `Fin p` (the Goldilocks prime field used for nonces and words),
sparse-Merkle-tree vaults become canonical sorted association lists,
fallible operations return `Except`, and operations that can panic in the
source are wrapped in `Option` (with `none` marking the panic).
External collaborators that the sources treat as opaque (the hash
function, `AccountId` derivation from a seed, storage-delta application,
the data store) are universally quantified parameters.
-/

set_option autoImplicit false

namespace Miden

/-- Goldilocks prime modulus of the base field: 2^64 - 2^32 + 1. -/
def p : Nat := 18446744069414584321

/-- Field elements; addition and subtraction are the mod-p operations,
matching the semantics of the source `Felt` type, and `.val` matches
`Felt::as_int`. -/
abbrev Felt := Fin p

instance : NeZero p := ⟨by decide⟩

/-- Words are 4 field elements, as in the source. -/
structure Word where
  w0 : Felt
  w1 : Felt
  w2 : Felt
  w3 : Felt
deriving DecidableEq

/-- Elements of a word in order, matching `Word`'s `Deref<[Felt; 4]>`. -/
def Word.toList (w : Word) : List Felt := [w.w0, w.w1, w.w2, w.w3]

/-- Translation of `Word::empty()` / `EMPTY_WORD`: the all-zero word. -/
def Word.empty : Word := ⟨0, 0, 0, 0⟩

/-- Account type encoded in an account ID's metadata bits. -/
inductive AccountType where
  | FungibleFaucet
  | NonFungibleFaucet
  | RegularAccountImmutableCode
  | RegularAccountUpdatableCode
deriving DecidableEq

/-- Numeric code of an account type, used to order vault keys. -/
def AccountType.toNat : AccountType → Nat
  | .FungibleFaucet => 0
  | .NonFungibleFaucet => 1
  | .RegularAccountImmutableCode => 2
  | .RegularAccountUpdatableCode => 3

/-- Modelled from the spec: `AccountId = (prefix, suffix)` encoding
`account_type` and an id version (the source file `account_id.rs` is not
available, so the id is modelled as a record of the fields the available
sources read: `prefix().as_felt()` is `pfx`, `suffix()` is `sfx`,
`account_type()` is `accountType`, `version()` is `version`). -/
structure AccountId where
  pfx : Felt
  sfx : Felt
  accountType : AccountType
  version : Nat
deriving DecidableEq

/-- Contractual constant: maximum amount of a fungible asset, 2^63 - 1. -/
def MAX_AMOUNT : Nat := 2 ^ 63 - 1

/-- Modelled from the spec: a fungible asset is an amount issued by a
fungible-faucet account (`FungibleAsset` source file is not under the
available sources; amounts accumulate and are bounded by `MAX_AMOUNT`). -/
structure FungibleAsset where
  faucetId : AccountId
  amount : Nat
deriving DecidableEq

/-- Modelled from the spec: `FungibleAsset::new` validates that the faucet
id is of type fungible faucet and the amount does not exceed `MAX_AMOUNT`
(callers in the available sources unwrap it with the message "Not a
fungible faucet ID or delta is too large"). -/
def FungibleAsset.new (faucetId : AccountId) (amount : Nat) : Option FungibleAsset :=
  if faucetId.accountType = AccountType.FungibleFaucet ∧ amount ≤ MAX_AMOUNT then
    some ⟨faucetId, amount⟩
  else
    none

/-- Modelled from the spec: adding two fungible assets of the same faucet
adds the amounts and fails when the sum exceeds `MAX_AMOUNT` (fungible sum
must stay at most 2^63 - 1). -/
def FungibleAsset.add (a b : FungibleAsset) : Option FungibleAsset :=
  if a.faucetId = b.faucetId ∧ a.amount + b.amount ≤ MAX_AMOUNT then
    some ⟨a.faucetId, a.amount + b.amount⟩
  else
    none

/-- Modelled from the spec: subtracting a fungible asset fails when the
subtrahend exceeds the current amount (removal must be at most current). -/
def FungibleAsset.sub (a b : FungibleAsset) : Option FungibleAsset :=
  if a.faucetId = b.faucetId ∧ b.amount ≤ a.amount then
    some ⟨a.faucetId, a.amount - b.amount⟩
  else
    none

/-- Assets stored in a vault leaf: the fungible variant carries its
issuing faucet and amount; the non-fungible variant is identified by the
digest word of its payload (which also derives its vault key), so the
digest stands for the asset itself. -/
inductive Asset where
  | fungible (faucetId : AccountId) (amount : Nat)
  | nonFungible (digest : Word)
deriving DecidableEq

/-- Modelled from the spec: vault keys — fungible assets are keyed by
their issuing faucet id, non-fungible assets by the digest of the asset
payload; the embedded faucet-type bits keep the two families disjoint. -/
inductive VaultKey where
  | fungible (faucetId : AccountId)
  | nonFungible (digest : Word)
deriving DecidableEq

/-- Translation of `Asset::vault_key`. -/
def Asset.vaultKey : Asset → VaultKey
  | .fungible f _ => .fungible f
  | .nonFungible w => .nonFungible w

/-- Translation of `FungibleAsset::vault_key`. -/
def FungibleAsset.vaultKey (a : FungibleAsset) : VaultKey := .fungible a.faucetId

/-- Reinterpretation of a stored leaf value as a fungible asset,
translating `FungibleAsset::new_unchecked` (which reinterprets the raw
word); on a non-fungible value it produces junk, exactly as the unchecked
reinterpretation would, and that case is unreachable for well-formed
vaults. -/
def Asset.asFungibleUnchecked : Asset → FungibleAsset
  | .fungible f amt => ⟨f, amt⟩
  | .nonFungible _ => ⟨⟨0, 0, AccountType.FungibleFaucet, 0⟩, 0⟩

/-- Injective numeric encoding of an account id, used to order vault
keys the way the source SMT orders its 256-bit keys. -/
def AccountId.toNat (id : AccountId) : Nat :=
  Nat.pair (Nat.pair id.pfx.val id.sfx.val) (Nat.pair id.accountType.toNat id.version)

/-- Injective numeric encoding of a word. -/
def Word.toNat (w : Word) : Nat :=
  Nat.pair (Nat.pair w.w0.val w.w1.val) (Nat.pair w.w2.val w.w3.val)

/-- Injective numeric encoding of a vault key; the sorted association
list representing the SMT is ordered by this encoding. -/
def VaultKey.toNat : VaultKey → Nat
  | .fungible f => 2 * f.toNat
  | .nonFungible w => 2 * w.toNat + 1

/-!
Sparse Merkle tree backing the asset vault. The tree is a canonical map
from vault keys to non-empty leaf values; it is modelled as an
association list sorted strictly by the key encoding, with the SMT
`EMPTY_VALUE` represented by absence (`Option.none` on reads). The tree
root is a function of this canonical entry list, so list equality
coincides with equality of trees and of their roots.
-/

/-- Translation of `Smt::get_value`; `none` plays the role of
`Smt::EMPTY_VALUE`. -/
def Smt.getValue : List (VaultKey × Asset) → VaultKey → Option Asset
  | [], _ => none
  | (k, a) :: rest, key => if k = key then some a else Smt.getValue rest key

/-- Insertion of a non-empty value, keeping the list sorted by the key
encoding and replacing an existing entry with the same key. -/
def Smt.insertSorted (key : VaultKey) (v : Asset) :
    List (VaultKey × Asset) → List (VaultKey × Asset)
  | [] => [(key, v)]
  | (k, a) :: rest =>
    if key.toNat < k.toNat then (key, v) :: (k, a) :: rest
    else if k = key then (key, v) :: rest
    else (k, a) :: Smt.insertSorted key v rest

/-- Removal of the entry with the given key, if present. -/
def Smt.eraseKey (key : VaultKey) : List (VaultKey × Asset) → List (VaultKey × Asset)
  | [] => []
  | (k, a) :: rest => if k = key then rest else (k, a) :: Smt.eraseKey key rest

/-- Error raised by the external sparse Merkle tree when a leaf's entry
capacity would be exceeded (wrapped by the vault into
`AssetVaultError::MaxLeafEntriesExceeded`). -/
inductive MerkleError where
  | tooManyLeafEntries
deriving DecidableEq

/-- Configuration of the external sparse Merkle tree primitive: the
assignment of keys to leaves (several keys may share a leaf) and the
bound on the number of entries a single leaf can hold. Both live in the
external miden-crypto crate, so they are kept abstract and quantified in
the theorems. -/
structure SmtConfig where
  leafIdx : VaultKey → Nat
  maxLeafEntries : Nat

/-- Number of entries currently stored in the leaf that `key` maps to. -/
def Smt.leafCount (cfg : SmtConfig) (entries : List (VaultKey × Asset)) (key : VaultKey) :
    Nat :=
  (entries.filter fun e => cfg.leafIdx e.1 = cfg.leafIdx key).length

/-- Modelled from the spec: `Smt::insert(key, value) -> old_value` of
the external miden-crypto SMT. Inserting the empty value (`none`)
removes the leaf entry and the previous value is returned; placing a new
key into a leaf already holding `maxLeafEntries` entries is rejected
with the max-leaf-entries error (listed in the spec's vault error
taxonomy), the tree left unchanged; replacing the value of a key that is
already present never grows a leaf and never fails. -/
def Smt.insert (cfg : SmtConfig) (entries : List (VaultKey × Asset)) (key : VaultKey)
    (v : Option Asset) : Except MerkleError (Option Asset × List (VaultKey × Asset)) :=
  match v with
  | some a =>
    if Smt.getValue entries key = none ∧
        cfg.maxLeafEntries ≤ Smt.leafCount cfg entries key then
      .error .tooManyLeafEntries
    else
      .ok (Smt.getValue entries key, Smt.insertSorted key a entries)
  | none => .ok (Smt.getValue entries key, Smt.eraseKey key entries)

/-- Sortedness of the entry list by the injective key encoding; this is
the canonical-form invariant of the source SMT. -/
def Smt.sortedB : List (VaultKey × Asset) → Bool
  | [] => true
  | [_] => true
  | e₁ :: e₂ :: rest => e₁.1.toNat < e₂.1.toNat && Smt.sortedB (e₂ :: rest)

/-- Well-formedness of a single vault entry: the stored value is the kind
of asset its key announces, the fungible faucet matches the key and the
amount is representable. This is the invariant the source maintains by
construction of `Asset` and `vault_key`. -/
def entryWfB : VaultKey × Asset → Bool
  | (.fungible f, .fungible f' amt) => f' = f && amt ≤ MAX_AMOUNT
  | (.nonFungible w, .nonFungible w') => w' = w
  | _ => false

-- ASSET VAULT
-- ===========

/-- Translation of `AssetVault`: the sparse Merkle tree of assets, in
canonical form. -/
structure AssetVault where
  entries : List (VaultKey × Asset)
deriving DecidableEq

/-- Vault well-formedness: canonical order plus per-entry consistency. -/
def AssetVault.wf (v : AssetVault) : Bool :=
  Smt.sortedB v.entries && v.entries.all entryWfB

/-- Absence of explicit zero-amount fungible leaves. Vault mutation never
creates such a leaf, but `AssetVault::new` accepts zero-amount fungible
assets and stores them as (non-empty) leaves. -/
def AssetVault.noZeroFungible (v : AssetVault) : Bool :=
  v.entries.all fun e =>
    match e.2 with
    | .fungible _ amt => amt ≠ 0
    | .nonFungible _ => true

/-- Vault errors, translated from `AssetVaultError` (only the variants
reachable in the embedded operations). -/
inductive AssetVaultError where
  | DuplicateAsset (key : VaultKey)
  | AddFungibleAssetBalanceError
  | SubtractFungibleAssetBalanceError
  | FungibleAssetNotFound (asset : FungibleAsset)
  | DuplicateNonFungibleAsset (digest : Word)
  | NonFungibleAssetNotFound (digest : Word)
  | NotAFungibleFaucetId (faucetId : AccountId)
  | MaxLeafEntriesExceeded (e : MerkleError)
deriving DecidableEq

/-- Translation of `AssetVault::new`: builds the tree from the assets,
failing on a duplicate vault key (`Smt::with_entries` rejects duplicate
keys). -/
def AssetVault.new (assets : List Asset) : Except AssetVaultError AssetVault :=
  go assets []
where
  /-- Insert assets one by one, rejecting duplicate keys. -/
  go : List Asset → List (VaultKey × Asset) → Except AssetVaultError AssetVault
    | [], acc => .ok ⟨acc⟩
    | a :: rest, acc =>
      match Smt.getValue acc a.vaultKey with
      | some _ => .error (.DuplicateAsset a.vaultKey)
      | none => go rest (Smt.insertSorted a.vaultKey a acc)

/-- Translation of `AssetVault::get_balance`. -/
def AssetVault.getBalance (v : AssetVault) (faucetId : AccountId) :
    Except AssetVaultError Nat :=
  if faucetId.accountType ≠ AccountType.FungibleFaucet then
    .error (.NotAFungibleFaucetId faucetId)
  else
    match Smt.getValue v.entries (.fungible faucetId) with
    | none => .ok 0
    | some asset => .ok asset.asFungibleUnchecked.amount

/-- Translation of `AssetVault::add_fungible_asset`. The vault component
of the result is the vault state after the call (the source mutates
through `&mut self`), alongside the `Result`; a failing `Smt::insert` is
propagated as `MaxLeafEntriesExceeded` (vault/mod.rs:216) with the tree
as the primitive left it. -/
def AssetVault.addFungibleAsset (cfg : SmtConfig) (v : AssetVault) (asset : FungibleAsset) :
    Except AssetVaultError FungibleAsset × AssetVault :=
  match Smt.getValue v.entries asset.vaultKey with
  | none =>
    match Smt.insert cfg v.entries asset.vaultKey
        (some (.fungible asset.faucetId asset.amount)) with
    | .error e => (.error (.MaxLeafEntriesExceeded e), v)
    | .ok r => (.ok asset, ⟨r.2⟩)
  | some current =>
    match current.asFungibleUnchecked.add asset with
    | none => (.error .AddFungibleAssetBalanceError, v)
    | some n =>
      match Smt.insert cfg v.entries n.vaultKey (some (.fungible n.faucetId n.amount)) with
      | .error e => (.error (.MaxLeafEntriesExceeded e), v)
      | .ok r => (.ok n, ⟨r.2⟩)

/-- Translation of `AssetVault::add_non_fungible_asset`: the asset is
inserted first — a failing insertion propagating `MaxLeafEntriesExceeded`
(vault/mod.rs:235) — and the duplicate error is raised afterwards if the
old value was non-empty (leaving the tree as mutated by the insertion). -/
def AssetVault.addNonFungibleAsset (cfg : SmtConfig) (v : AssetVault) (digest : Word) :
    Except AssetVaultError Word × AssetVault :=
  match Smt.insert cfg v.entries (.nonFungible digest) (some (.nonFungible digest)) with
  | .error e => (.error (.MaxLeafEntriesExceeded e), v)
  | .ok r =>
    if r.1 ≠ none then (.error (.DuplicateNonFungibleAsset digest), ⟨r.2⟩)
    else (.ok digest, ⟨r.2⟩)

/-- Translation of `AssetVault::remove_fungible_asset`: a resulting zero
amount stores the empty value, removing the leaf; a failing insertion
propagates `MaxLeafEntriesExceeded` (vault/mod.rs:295), though the
update only ever replaces or erases an existing entry. -/
def AssetVault.removeFungibleAsset (cfg : SmtConfig) (v : AssetVault) (asset : FungibleAsset) :
    Except AssetVaultError FungibleAsset × AssetVault :=
  match Smt.getValue v.entries asset.vaultKey with
  | none => (.error (.FungibleAssetNotFound asset), v)
  | some current =>
    match current.asFungibleUnchecked.sub asset with
    | none => (.error .SubtractFungibleAssetBalanceError, v)
    | some n =>
      let value : Option Asset := if n.amount = 0 then none else some (.fungible n.faucetId n.amount)
      match Smt.insert cfg v.entries n.vaultKey value with
      | .error e => (.error (.MaxLeafEntriesExceeded e), v)
      | .ok r => (.ok asset, ⟨r.2⟩)

/-- Translation of `AssetVault::remove_non_fungible_asset`: the empty
value is inserted first — a failing insertion propagating
`MaxLeafEntriesExceeded` (vault/mod.rs:315), though erasing never grows
a leaf — and the not-found error is raised afterwards if the old value
was empty. -/
def AssetVault.removeNonFungibleAsset (cfg : SmtConfig) (v : AssetVault) (digest : Word) :
    Except AssetVaultError Word × AssetVault :=
  match Smt.insert cfg v.entries (.nonFungible digest) none with
  | .error e => (.error (.MaxLeafEntriesExceeded e), v)
  | .ok r =>
    if r.1 = none then (.error (.NonFungibleAssetNotFound digest), ⟨r.2⟩)
    else (.ok digest, ⟨r.2⟩)

/-- Translation of `AssetVault::add_asset`, dispatching on the variant. -/
def AssetVault.addAsset (cfg : SmtConfig) (v : AssetVault) (asset : Asset) :
    Except AssetVaultError Asset × AssetVault :=
  match asset with
  | .fungible f amt =>
    let r := AssetVault.addFungibleAsset cfg v ⟨f, amt⟩
    (r.1.map fun a => .fungible a.faucetId a.amount, r.2)
  | .nonFungible w =>
    let r := AssetVault.addNonFungibleAsset cfg v w
    (r.1.map .nonFungible, r.2)

/-- Translation of `AssetVault::remove_asset`, dispatching on the
variant. -/
def AssetVault.removeAsset (cfg : SmtConfig) (v : AssetVault) (asset : Asset) :
    Except AssetVaultError Asset × AssetVault :=
  match asset with
  | .fungible f amt =>
    let r := AssetVault.removeFungibleAsset cfg v ⟨f, amt⟩
    (r.1.map fun a => .fungible a.faucetId a.amount, r.2)
  | .nonFungible w =>
    let r := AssetVault.removeNonFungibleAsset cfg v w
    (r.1.map .nonFungible, r.2)

-- ACCOUNT VAULT DELTA
-- ===================

/-- Translation of `NonFungibleDeltaAction`. -/
inductive NonFungibleDeltaAction where
  | add
  | remove
deriving DecidableEq

/-- Modelled from the spec: an account vault delta holds a signed amount
per fungible faucet and an add/remove action per non-fungible asset (the
delta type's own source file is not available; iteration order over the
underlying maps is the list order here). -/
structure AccountVaultDelta where
  fungible : List (AccountId × Int)
  nonFungible : List (Word × NonFungibleDeltaAction)
deriving DecidableEq

/-- Fungible loop of `AssetVault::apply_delta`; the `expect` on
`FungibleAsset::new` is modelled by the outer `Option` (`none` stands for
the panic). -/
def AssetVault.applyFungibleDeltas (cfg : SmtConfig) (v : AssetVault) :
    List (AccountId × Int) → Option (Except AssetVaultError AssetVault)
  | [] => some (.ok v)
  | (faucetId, delta) :: rest =>
    match FungibleAsset.new faucetId delta.natAbs with
    | none => none
    | some asset =>
      let r := if 0 ≤ delta then AssetVault.addFungibleAsset cfg v asset
               else AssetVault.removeFungibleAsset cfg v asset
      match r.1 with
      | .error e => some (.error e)
      | .ok _ => AssetVault.applyFungibleDeltas cfg r.2 rest

/-- Non-fungible loop of `AssetVault::apply_delta`. -/
def AssetVault.applyNonFungibleDeltas (cfg : SmtConfig) (v : AssetVault) :
    List (Word × NonFungibleDeltaAction) → Except AssetVaultError AssetVault
  | [] => .ok v
  | (digest, action) :: rest =>
    let r := match action with
      | .add => AssetVault.addNonFungibleAsset cfg v digest
      | .remove => AssetVault.removeNonFungibleAsset cfg v digest
    match r.1 with
    | .error e => .error e
    | .ok _ => AssetVault.applyNonFungibleDeltas cfg r.2 rest

/-- Translation of `AssetVault::apply_delta`. -/
def AssetVault.applyDelta (cfg : SmtConfig) (v : AssetVault) (delta : AccountVaultDelta) :
    Option (Except AssetVaultError AssetVault) :=
  match AssetVault.applyFungibleDeltas cfg v delta.fungible with
  | none => none
  | some (.error e) => some (.error e)
  | some (.ok v') => some (AssetVault.applyNonFungibleDeltas cfg v' delta.nonFungible)

-- ACCOUNT
-- =======

/-- Account storage, reduced to its commitment: the claims under
verification read storage only through `AccountStorage::commitment`
(its own mutation is delegated to a quantified parameter). -/
structure AccountStorage where
  commitment : Word
deriving DecidableEq

/-- Account code, reduced to its commitment, read only through
`AccountCode::commitment` in the claims under verification. -/
structure AccountCode where
  commitment : Word
deriving DecidableEq

/-- Translation of the `Account` struct. -/
structure Account where
  id : AccountId
  vault : AssetVault
  storage : AccountStorage
  code : AccountCode
  nonce : Felt
  seed : Option Word
deriving DecidableEq

/-- Account errors, translated from `AccountError` (the variants the
embedded operations can produce). -/
inductive AccountError where
  | SeedConvertsToInvalidAccountId
  | AccountIdSeedMismatch (expected actual : AccountId)
  | NewAccountMissingSeed
  | ExistingAccountWithSeed
  | NonceOverflow (current increment new : Felt)
  | AssetVaultUpdateError (e : AssetVaultError)
  | StorageUpdateError
deriving DecidableEq

/-- Translation of `hash_account`'s `copy_from_slice` range writes. -/
def setSlice : List Felt → Nat → List Felt → List Felt
  | l, _, [] => l
  | l, i, x :: xs => setSlice (l.set i x) (i + 1) xs

/-- Translation of `hash_account`: a 16-element buffer of zeros is filled
positionally and hashed. The hash function itself is an external
primitive and is passed as a parameter. -/
def hash_account (hashElements : List Felt → Word) (id : AccountId) (nonce : Felt)
    (vaultRoot storageCommitment codeCommitment : Word) : Word :=
  let elements := List.replicate 16 (0 : Felt)
  let elements := elements.set 0 id.sfx
  let elements := elements.set 1 id.pfx
  let elements := elements.set 3 nonce
  let elements := setSlice elements 4 vaultRoot.toList
  let elements := setSlice elements 8 storageCommitment.toList
  let elements := setSlice elements 12 codeCommitment.toList
  hashElements elements

/-- Translation of `Account::commitment`; the vault root is computed by
the external SMT primitive, passed as the `vaultRoot` parameter. -/
def Account.commitment (hashElements : List Felt → Word) (vaultRoot : AssetVault → Word)
    (a : Account) : Word :=
  hash_account hashElements a.id a.nonce (vaultRoot a.vault) a.storage.commitment
    a.code.commitment

/-- Translation of `Account::is_new`. -/
def Account.isNew (a : Account) : Bool := a.nonce = 0

/-- Translation of `Account::initial_commitment`. -/
def Account.initialCommitment (hashElements : List Felt → Word)
    (vaultRoot : AssetVault → Word) (a : Account) : Word :=
  if a.isNew then Word.empty else a.commitment hashElements vaultRoot

/-- Translation of `validate_account_seed`; the external
`AccountId::new(seed, version, code_commitment, storage_commitment)`
derivation is the parameter `accountIdNew`, with `none` standing for its
failure. -/
def validate_account_seed (accountIdNew : Word → Nat → Word → Word → Option AccountId)
    (id : AccountId) (codeCommitment storageCommitment : Word)
    (seed : Option Word) (nonce : Felt) : Except AccountError Unit :=
  let accountIsNew := decide (nonce = (0 : Felt))
  match accountIsNew, seed with
  | true, some s =>
    match accountIdNew s id.version codeCommitment storageCommitment with
    | none => .error .SeedConvertsToInvalidAccountId
    | some accountId =>
      if accountId ≠ id then .error (.AccountIdSeedMismatch id accountId)
      else .ok ()
  | true, none => .error .NewAccountMissingSeed
  | false, some _ => .error .ExistingAccountWithSeed
  | false, none => .ok ()

/-- Translation of `Account::new`. -/
def Account.new (accountIdNew : Word → Nat → Word → Word → Option AccountId)
    (id : AccountId) (vault : AssetVault) (storage : AccountStorage) (code : AccountCode)
    (nonce : Felt) (seed : Option Word) : Except AccountError Account :=
  match validate_account_seed accountIdNew id code.commitment storage.commitment seed nonce with
  | .error e => .error e
  | .ok () => .ok ⟨id, vault, storage, code, nonce, seed⟩

/-- Translation of `Account::increment_nonce`, including the clearing of
the seed when the updated account is no longer new (the source's
`if !self.is_new() { self.seed = None }` after the nonce update). -/
def Account.incrementNonce (a : Account) (nonceDelta : Felt) : Except AccountError Account :=
  let newNonce := a.nonce + nonceDelta
  if newNonce.val < a.nonce.val then
    .error (.NonceOverflow a.nonce nonceDelta newNonce)
  else
    let a' : Account := { a with nonce := newNonce }
    if a'.isNew then .ok a' else .ok { a' with seed := none }

/-- Translation of `AccountDelta`, generic over the storage sub-delta
type `σ` (storage-delta application lives outside the available sources
and is supplied as a parameter where needed). -/
structure AccountDelta (σ : Type) where
  accountId : AccountId
  storage : σ
  vault : AccountVaultDelta
  nonceDelta : Felt

/-- Translation of `Account::apply_delta`: vault sub-delta, then storage
sub-delta, then nonce increment; the outer `Option` propagates the
panics of the vault loop. -/
def Account.applyDelta {σ : Type} (cfg : SmtConfig)
    (applyStorage : AccountStorage → σ → Except AccountError AccountStorage)
    (a : Account) (delta : AccountDelta σ) : Option (Except AccountError Account) :=
  match AssetVault.applyDelta cfg a.vault delta.vault with
  | none => none
  | some (.error e) => some (.error (.AssetVaultUpdateError e))
  | some (.ok vault') =>
    match applyStorage a.storage delta.storage with
    | .error e => some (.error e)
    | .ok storage' =>
      some (Account.incrementNonce { a with vault := vault', storage := storage' } delta.nonceDelta)

/-- Accounts reachable through the public mutation interface: created by
`Account::new` and evolved by `Account::increment_nonce` and
`Account::apply_delta`. -/
inductive Account.Reachable {σ : Type} (cfg : SmtConfig)
    (accountIdNew : Word → Nat → Word → Word → Option AccountId)
    (applyStorage : AccountStorage → σ → Except AccountError AccountStorage) :
    Account → Prop where
  | mk_new {id vault storage code nonce seed a}
      (h : Account.new accountIdNew id vault storage code nonce seed = .ok a) :
      Account.Reachable cfg accountIdNew applyStorage a
  | step_inc {a δ a'} (hr : Account.Reachable cfg accountIdNew applyStorage a)
      (h : a.incrementNonce δ = .ok a') :
      Account.Reachable cfg accountIdNew applyStorage a'
  | step_delta {a delta a'} (hr : Account.Reachable cfg accountIdNew applyStorage a)
      (h : Account.applyDelta cfg applyStorage a delta = some (.ok a')) :
      Account.Reachable cfg accountIdNew applyStorage a'

-- ADVICE MAP
-- ==========

/-- Modelled from the spec: the advice map of the advice provider, a map
from words to felt vectors (a `BTreeMap` in the external processor crate,
represented here as an association list without duplicate keys for the
entries reachable through the embedded operations). -/
def AdviceMap := List (Word × List Felt)

instance : DecidableEq AdviceMap := by
  unfold AdviceMap
  infer_instance

/-- Lookup in the advice map. -/
def AdviceMap.get : AdviceMap → Word → Option (List Felt)
  | [], _ => none
  | (k, v) :: rest, key => if k = key then some v else AdviceMap.get rest key

/-- Single-entry insertion with replacement (`BTreeMap::insert`). -/
def AdviceMap.insertEntry (m : AdviceMap) (e : Word × List Felt) : AdviceMap :=
  match m with
  | [] => [e]
  | e' :: rest => if e'.1 = e.1 then e :: rest else e' :: AdviceMap.insertEntry rest e

/-- Modelled from the spec: `AdviceMap::extend` replaces previously
inserted items (the doc comment of
`TransactionAdviceInputs::extend_map` states this contract). -/
def AdviceMap.extend (m : AdviceMap) (other : List (Word × List Felt)) : AdviceMap :=
  other.foldl AdviceMap.insertEntry m

/-- Conflict report of a failed advice-map merge, translated from
`TransactionAdviceMapMismatch` (the error carries the key, the existing
value and the incoming value). -/
structure TransactionAdviceMapMismatch where
  key : Word
  existingVal : List Felt
  incomingVal : List Felt
deriving DecidableEq

/-- Modelled from the spec: `AdviceMap::merge` adds the other map's
entries, failing on the first key already bound to a different value and
reporting `((key, existing), incoming)`. -/
def AdviceMap.merge (m : AdviceMap) : List (Word × List Felt) →
    Except TransactionAdviceMapMismatch AdviceMap
  | [] => .ok m
  | (k, v) :: rest =>
    match m.get k with
    | none => (m.insertEntry (k, v)).merge rest
    | some ex => if ex = v then m.merge rest else .error ⟨k, ex, v⟩

-- TRANSACTION ADVICE INPUTS (advice-map dimension)
-- ================================================

/-- Advice-map contribution of one input note in
`TransactionAdviceInputs::add_input_notes`: the recipient-inputs entry,
the assets entry, and the note script's MAST-forest advice map. -/
structure NoteSource where
  inputsEntry : Word × List Felt
  assetsEntry : Word × List Felt
  scriptAdviceMap : List (Word × List Felt)
deriving DecidableEq

/-- Advice-map contribution of one account in
`TransactionAdviceInputs::add_account`: code-commitment entry, the
account code's MAST-forest advice map, storage-commitment entry, and the
storage-map and vault leaf entries. -/
structure AccountSource where
  codeEntry : Word × List Felt
  codeAdviceMap : List (Word × List Felt)
  storageEntry : Word × List Felt
  storageLeafEntries : List (Word × List Felt)
  vaultLeafEntries : List (Word × List Felt)
deriving DecidableEq

/-- Advice-map contribution of one foreign account in
`TransactionAdviceInputs::add_foreign_accounts`: the account data, the
account-witness leaf entry, and the id-to-header entry. -/
structure ForeignAccountSource where
  account : AccountSource
  witnessLeafEntry : Word × List Felt
  headerEntry : Word × List Felt
deriving DecidableEq

/-- Advice-map contributions of all sources consumed by
`TransactionAdviceInputs::new`, in the roles the source reads them. -/
structure TxAdviceSources where
  initialMap : List (Word × List Felt)
  kernelEntry : Word × List Felt
  mmrEntry : Word × List Felt
  notes : List NoteSource
  notesBlobEntry : Word × List Felt
  txScriptAdviceMap : Option (List (Word × List Felt))
  nativeAccount : AccountSource
  seedEntry : Option (Word × List Felt)
  foreignAccounts : List ForeignAccountSource
  extraAdviceMap : List (Word × List Felt)
deriving DecidableEq

namespace TransactionAdviceInputs

/-- Translation of `TransactionAdviceInputs::add_account` (advice-map
dimension): the code entry is inserted, the code's advice map is merged
with conflict detection, and the storage entry and leaf entries are
inserted with replacement. -/
def addAccount (m : AdviceMap) (acc : AccountSource) :
    Except TransactionAdviceMapMismatch AdviceMap :=
  let m := m.insertEntry acc.codeEntry
  match m.merge acc.codeAdviceMap with
  | .error e => .error e
  | .ok m =>
    let m := m.insertEntry acc.storageEntry
    let m := m.extend acc.storageLeafEntries
    .ok (m.extend acc.vaultLeafEntries)

/-- Translation of the per-note loop of
`TransactionAdviceInputs::add_input_notes`: each note inserts its two
entries with replacement and merges its script's advice map with
conflict detection. -/
def addNotesLoop (m : AdviceMap) : List NoteSource →
    Except TransactionAdviceMapMismatch AdviceMap
  | [] => .ok m
  | n :: rest =>
    let m := m.insertEntry n.inputsEntry
    let m := m.insertEntry n.assetsEntry
    match m.merge n.scriptAdviceMap with
    | .error e => .error e
    | .ok m => addNotesLoop m rest

/-- Translation of `TransactionAdviceInputs::add_input_notes`
(advice-map dimension), including the early return on an empty note
set and the final aggregated note-data entry. -/
def addInputNotes (m : AdviceMap) (notes : List NoteSource)
    (blobEntry : Word × List Felt) : Except TransactionAdviceMapMismatch AdviceMap :=
  if notes.isEmpty then .ok m
  else
    match addNotesLoop m notes with
    | .error e => .error e
    | .ok m => .ok (m.insertEntry blobEntry)

/-- Translation of `TransactionAdviceInputs::add_foreign_accounts`
(advice-map dimension). -/
def addForeignAccounts (m : AdviceMap) : List ForeignAccountSource →
    Except TransactionAdviceMapMismatch AdviceMap
  | [] => .ok m
  | fa :: rest =>
    match addAccount m fa.account with
    | .error e => .error e
    | .ok m =>
      let m := m.insertEntry fa.witnessLeafEntry
      let m := m.insertEntry fa.headerEntry
      addForeignAccounts m rest

/-- Extension by the transaction script's advice map when a script is
present (`if let Some(tx_script) = ... { inputs.extend_map(...) }`). -/
def extendOptMap (m : AdviceMap) : Option (List (Word × List Felt)) → AdviceMap
  | some tsm => m.extend tsm
  | none => m

/-- Insertion of the seed entry when a seed is present
(`if let Some(seed) = ... { inputs.add_map_entry(...) }`). -/
def insertOptEntry (m : AdviceMap) : Option (Word × List Felt) → AdviceMap
  | some e => m.insertEntry e
  | none => m

/-- Translation of `TransactionAdviceInputs::new` (advice-map
dimension), mirroring the source order: tx-input advice map, kernel
entry, partial-blockchain entry, input notes, transaction-script advice
map (inserted with replacement), native account, seed entry, foreign
accounts, and finally the extra user-supplied advice map (also with
replacement). -/
def new (src : TxAdviceSources) : Except TransactionAdviceMapMismatch AdviceMap :=
  let m : AdviceMap := src.initialMap
  let m := m.insertEntry src.kernelEntry
  let m := m.insertEntry src.mmrEntry
  match addInputNotes m src.notes src.notesBlobEntry with
  | .error e => .error e
  | .ok m =>
    let m := extendOptMap m src.txScriptAdviceMap
    match addAccount m src.nativeAccount with
    | .error e => .error e
    | .ok m =>
      let m := insertOptEntry m src.seedEntry
      match addForeignAccounts m src.foreignAccounts with
      | .error e => .error e
      | .ok m => .ok (m.extend src.extraAdviceMap)

end TransactionAdviceInputs

-- EXECUTOR HOST: FEE EVENT
-- ========================

/-- Advice mutations emitted by host event handlers, translated from the
processor's `AdviceMutation` (merkle-store nodes are abstract words). -/
inductive AdviceMutation where
  | extendMerkleStore (nodes : List Word)
  | extendMap (entries : List (Word × List Felt))
  | extendStack (values : List Felt)
deriving DecidableEq

/-- Asset witness fetched from the data store, reduced to what the fee
handler reads: the result of `find` at the fee asset's vault key, the
authenticated merkle nodes, and the leaf entry. -/
structure AssetWitness where
  found : Option Asset
  nodes : List Word
  leafHash : Word
  leafElements : List Felt
deriving DecidableEq

/-- Translation of `asset_witness_to_advice_mutation`. -/
def asset_witness_to_advice_mutation (w : AssetWitness) : List AdviceMutation :=
  [.extendMerkleStore w.nodes, .extendMap [(w.leafHash, w.leafElements)]]

/-- Kernel errors reachable from the embedded fee handler. -/
inductive TransactionKernelError where
  | InsufficientFee (accountBalance txFee : Nat)
deriving DecidableEq

/-- Translation of
`TransactionExecutorHost::on_before_tx_fee_removed_from_account`. The
already-fetched witness stands for the data-store call (fetch failure is
outside the claim), `trackerAmount` is the
`account_delta_tracker().vault_delta().fungible().amount` view of the
host state, and the outer `Option` propagates the source's `expect`
panics (`none` marks a panic). -/
def on_before_tx_fee_removed_from_account (witness : AssetWitness)
    (trackerAmount : AccountId → Option Int) (feeAsset : FungibleAsset) :
    Option (Except TransactionKernelError (List AdviceMutation)) :=
  let initialOpt : Option FungibleAsset :=
    match witness.found with
    | some (.fungible f amt) => some ⟨f, amt⟩
    | _ => FungibleAsset.new feeAsset.faucetId 0
  match initialOpt with
  | none => none
  | some initialFeeAsset =>
    let feeAssetAmountDelta : Int := (trackerAmount initialFeeAsset.faucetId).getD 0
    match FungibleAsset.new initialFeeAsset.faucetId feeAssetAmountDelta.natAbs with
    | none => none
    | some feeAssetDelta =>
      let currentOpt :=
        if 0 < feeAssetAmountDelta then initialFeeAsset.add feeAssetDelta
        else initialFeeAsset.sub feeAssetDelta
      match currentOpt with
      | none => none
      | some currentFeeAsset =>
        if currentFeeAsset.amount < feeAsset.amount then
          some (.error (.InsufficientFee currentFeeAsset.amount feeAsset.amount))
        else
          some (.ok (asset_witness_to_advice_mutation witness))

-- EXECUTED TRANSACTION CONSTRUCTION
-- =================================

/-- Transaction outputs extracted from the VM result, reduced to the
fields `build_executed_transaction` reads: the final account header's id
and nonce, the kernel-reported delta commitment, and the fee asset. -/
structure TransactionOutputs where
  accountId : AccountId
  accountNonce : Felt
  accountDeltaCommitment : Word
  fee : FungibleAsset
deriving DecidableEq

/-- Executor errors reachable from the embedded
`build_executed_transaction`. -/
inductive TransactionExecutorError where
  | InconsistentAccountDeltaCommitment (inKernelCommitment hostCommitment : Word)
  | RemoveFeeAssetFromDelta (e : AssetVaultError)
  | InconsistentAccountId (inputId outputId : AccountId)
  | InconsistentAccountNonceDelta (expected actual : Felt)
deriving DecidableEq

/-- Translation of `build_executed_transaction`, at the granularity the
claim speaks about: the host-extracted pre-fee delta is checked against
the kernel's delta commitment, the fee asset is removed from its vault
sub-delta (`commitDelta` is the external delta commitment scheme and
`removeAsset` the external `AccountVaultDelta::remove_asset`), the
account id must be unchanged, and the post-fee delta's nonce delta must
equal final nonce minus initial nonce. On success the post-fee delta is
returned. -/
def build_executed_transaction {σ : Type}
    (commitDelta : AccountDelta σ → Word)
    (removeAsset : AccountVaultDelta → Asset → Except AssetVaultError AccountVaultDelta)
    (preFeeAccountDelta : AccountDelta σ) (txOutputs : TransactionOutputs)
    (initialId : AccountId) (initialNonce : Felt) :
    Except TransactionExecutorError (AccountDelta σ) :=
  if txOutputs.accountDeltaCommitment ≠ commitDelta preFeeAccountDelta then
    .error (.InconsistentAccountDeltaCommitment txOutputs.accountDeltaCommitment
      (commitDelta preFeeAccountDelta))
  else
    match removeAsset preFeeAccountDelta.vault
        (.fungible txOutputs.fee.faucetId txOutputs.fee.amount) with
    | .error e => .error (.RemoveFeeAssetFromDelta e)
    | .ok vault' =>
      if initialId ≠ txOutputs.accountId then
        .error (.InconsistentAccountId initialId txOutputs.accountId)
      else if txOutputs.accountNonce - initialNonce ≠ preFeeAccountDelta.nonceDelta then
        .error (.InconsistentAccountNonceDelta (txOutputs.accountNonce - initialNonce)
          preFeeAccountDelta.nonceDelta)
      else
        .ok { preFeeAccountDelta with vault := vault' }

-- ADVICE STACK CONSTRUCTION
-- =========================

/-- Fee parameters of a block header, as read by `build_stack`. -/
structure FeeParameters where
  nativeAssetId : AccountId
  verificationBaseFee : Felt
deriving DecidableEq

/-- Block header, reduced to the fields `build_stack` reads. -/
structure BlockHeader where
  prevBlockCommitment : Word
  chainCommitment : Word
  accountRoot : Word
  nullifierRoot : Word
  txCommitment : Word
  txKernelCommitment : Word
  proofCommitment : Word
  blockNum : Felt
  version : Felt
  timestamp : Felt
  feeParameters : FeeParameters
  noteRoot : Word
deriving DecidableEq

/-- Native account view read by `build_stack`: id, nonce, vault root,
storage commitment, and code commitment. -/
structure StackAccountView where
  id : AccountId
  nonce : Felt
  vaultRoot : Word
  storageCommitment : Word
  codeCommitment : Word
deriving DecidableEq

/-- Transaction arguments read by `build_stack`: the optional script
root, the script args, and the auth args. -/
structure StackTxArgs where
  txScriptRoot : Option Word
  txScriptArgs : Word
  authArgs : Word
deriving DecidableEq

/-- Transaction inputs, reduced to the data `build_stack` reads. -/
structure StackTxInputs where
  blockHeader : BlockHeader
  account : StackAccountView
  numInputNotes : Felt
  txArgs : StackTxArgs
deriving DecidableEq

/-- Translation of `TransactionAdviceInputs::build_stack`: the advice
stack grows by each `extend_stack` call in source order. -/
def build_stack (tx : StackTxInputs) : List Felt :=
  let header := tx.blockHeader
  let stack : List Felt := []
  let stack := stack ++ header.prevBlockCommitment.toList
  let stack := stack ++ header.chainCommitment.toList
  let stack := stack ++ header.accountRoot.toList
  let stack := stack ++ header.nullifierRoot.toList
  let stack := stack ++ header.txCommitment.toList
  let stack := stack ++ header.txKernelCommitment.toList
  let stack := stack ++ header.proofCommitment.toList
  let stack := stack ++ [header.blockNum, header.version, header.timestamp, 0]
  let stack := stack ++ [header.feeParameters.nativeAssetId.sfx,
    header.feeParameters.nativeAssetId.pfx, header.feeParameters.verificationBaseFee, 0]
  let stack := stack ++ [0, 0, 0, 0]
  let stack := stack ++ header.noteRoot.toList
  let account := tx.account
  let stack := stack ++ [account.id.sfx, account.id.pfx, 0, account.nonce]
  let stack := stack ++ account.vaultRoot.toList
  let stack := stack ++ account.storageCommitment.toList
  let stack := stack ++ account.codeCommitment.toList
  let stack := stack ++ [tx.numInputNotes]
  let stack := stack ++ ((tx.txArgs.txScriptRoot.getD Word.empty).toList)
  let stack := stack ++ tx.txArgs.txScriptArgs.toList
  stack ++ tx.txArgs.authArgs.toList

-- HELPERS
-- =======

/-- Boolean error test for `Except` results. -/
def isError {ε α : Type _} : Except ε α → Bool
  | .error _ => true
  | .ok _ => false

/-- Injectivity of the account-type code. -/
theorem accountType_toNat_inj {t t' : AccountType} (h : t.toNat = t'.toNat) : t = t' := by
  cases t <;> cases t' <;> first | rfl | simp [AccountType.toNat] at h

/-- Injectivity of the account-id encoding. -/
theorem accountId_toNat_inj {a b : AccountId} (h : a.toNat = b.toNat) : a = b := by
  cases a; cases b
  simp only [AccountId.toNat, Nat.pair_eq_pair] at h
  obtain ⟨⟨h1, h2⟩, h3, h4⟩ := h
  simp only [AccountId.mk.injEq]
  exact ⟨Fin.ext h1, Fin.ext h2, accountType_toNat_inj h3, h4⟩

/-- Injectivity of the word encoding. -/
theorem word_toNat_inj {a b : Word} (h : a.toNat = b.toNat) : a = b := by
  cases a; cases b
  simp only [Word.toNat, Nat.pair_eq_pair] at h
  obtain ⟨⟨h1, h2⟩, h3, h4⟩ := h
  simp only [Word.mk.injEq]
  exact ⟨Fin.ext h1, Fin.ext h2, Fin.ext h3, Fin.ext h4⟩

/-- Injectivity of the vault-key encoding. -/
theorem vaultKey_toNat_inj {k k' : VaultKey} (h : k.toNat = k'.toNat) : k = k' := by
  cases k <;> cases k' <;> simp only [VaultKey.toNat] at h
  · exact congrArg VaultKey.fungible (accountId_toNat_inj (by omega))
  · omega
  · omega
  · exact congrArg VaultKey.nonFungible (word_toNat_inj (by omega))

/-- Sortedness is inherited by the tail. -/
theorem Smt.sortedB_tail {e : VaultKey × Asset} {l : List (VaultKey × Asset)}
    (h : Smt.sortedB (e :: l) = true) : Smt.sortedB l = true := by
  cases l with
  | nil => rfl
  | cons e₂ rest =>
    simp only [Smt.sortedB, Bool.and_eq_true] at h
    exact h.2

/-- In a sorted list, every key found in the tail is above the head key. -/
theorem Smt.getValue_tail_lt {k₁ : VaultKey} {a₁ : Asset} {rest : List (VaultKey × Asset)}
    {k : VaultKey} {v : Asset} (hs : Smt.sortedB ((k₁, a₁) :: rest) = true)
    (h : Smt.getValue rest k = some v) : k₁.toNat < k.toNat := by
  induction rest generalizing k₁ a₁ with
  | nil => simp [Smt.getValue] at h
  | cons e₂ rest₂ ih =>
    obtain ⟨k₂, a₂⟩ := e₂
    have h12 : k₁.toNat < k₂.toNat := by
      simp only [Smt.sortedB, Bool.and_eq_true, decide_eq_true_eq] at hs
      exact hs.1
    by_cases hk : k₂ = k
    · exact hk ▸ h12
    · have hrest : Smt.getValue rest₂ k = some v := by
        simpa [Smt.getValue, hk] using h
      exact Nat.lt_trans h12 (ih (Smt.sortedB_tail hs) hrest)

/-- Lookup after sorted insertion of the same key. -/
theorem Smt.getValue_insertSorted_self {k : VaultKey} {v : Asset} :
    ∀ {l : List (VaultKey × Asset)}, Smt.getValue (Smt.insertSorted k v l) k = some v
  | [] => by simp [Smt.insertSorted, Smt.getValue]
  | (k₁, a₁) :: rest => by
    by_cases hlt : k.toNat < k₁.toNat
    · simp [Smt.insertSorted, Smt.getValue, hlt]
    · by_cases heq : k₁ = k
      · simp [Smt.insertSorted, Smt.getValue, hlt, heq]
      · simpa [Smt.insertSorted, Smt.getValue, hlt, heq] using
          Smt.getValue_insertSorted_self (l := rest)

/-- Erasing a freshly inserted key restores the original list. -/
theorem Smt.eraseKey_insertSorted {k : VaultKey} {v : Asset} :
    ∀ {l : List (VaultKey × Asset)}, Smt.getValue l k = none →
      Smt.eraseKey k (Smt.insertSorted k v l) = l
  | [], _ => by simp [Smt.insertSorted, Smt.eraseKey]
  | (k₁, a₁) :: rest, h => by
    have hne : k₁ ≠ k := by
      intro he
      simp [Smt.getValue, he] at h
    have hrest : Smt.getValue rest k = none := by
      simpa [Smt.getValue, hne] using h
    by_cases hlt : k.toNat < k₁.toNat
    · simp [Smt.insertSorted, Smt.eraseKey, hlt, hne]
    · simp only [Smt.insertSorted, if_neg hlt, if_neg hne]
      simp [Smt.eraseKey, hne, Smt.eraseKey_insertSorted hrest]

/-- Erasing an absent key is a no-op. -/
theorem Smt.eraseKey_of_getValue_none {k : VaultKey} :
    ∀ {l : List (VaultKey × Asset)}, Smt.getValue l k = none → Smt.eraseKey k l = l
  | [], _ => rfl
  | (k₁, a₁) :: rest, h => by
    have hne : k₁ ≠ k := by
      intro he
      simp [Smt.getValue, he] at h
    have hrest : Smt.getValue rest k = none := by
      simpa [Smt.getValue, hne] using h
    simp [Smt.eraseKey, hne, Smt.eraseKey_of_getValue_none hrest]

/-- Re-inserting the value a sorted list already holds at a key is a
no-op. -/
theorem Smt.insertSorted_getValue_self {k : VaultKey} {v : Asset} :
    ∀ {l : List (VaultKey × Asset)}, Smt.sortedB l = true →
      Smt.getValue l k = some v → Smt.insertSorted k v l = l
  | [], _, h => by simp [Smt.getValue] at h
  | (k₁, a₁) :: rest, hs, h => by
    by_cases heq : k₁ = k
    · have hv : a₁ = v := by
        simpa [Smt.getValue, heq] using h
      have hlt : ¬ k.toNat < k₁.toNat := by
        rw [heq]
        omega
      simp [Smt.insertSorted, hlt, heq, hv]
    · have hrest : Smt.getValue rest k = some v := by
        simpa [Smt.getValue, heq] using h
      have hgt : k₁.toNat < k.toNat := Smt.getValue_tail_lt hs hrest
      have hlt : ¬ k.toNat < k₁.toNat := by omega
      simp [Smt.insertSorted, hlt, heq,
        Smt.insertSorted_getValue_self (Smt.sortedB_tail hs) hrest]

/-- Consecutive sorted insertions at the same key collapse to the last
one. -/
theorem Smt.insertSorted_insertSorted_same {k : VaultKey} {v₁ v₂ : Asset} :
    ∀ {l : List (VaultKey × Asset)},
      Smt.insertSorted k v₂ (Smt.insertSorted k v₁ l) = Smt.insertSorted k v₂ l
  | [] => by simp [Smt.insertSorted]
  | (k₁, a₁) :: rest => by
    by_cases hlt : k.toNat < k₁.toNat
    · simp [Smt.insertSorted, hlt]
    · by_cases heq : k₁ = k
      · simp [Smt.insertSorted, hlt, heq]
      · simp [Smt.insertSorted, hlt, heq,
          Smt.insertSorted_insertSorted_same (l := rest)]

/-- Every looked-up binding is a member of the entry list. -/
theorem Smt.getValue_mem {k : VaultKey} {v : Asset} :
    ∀ {l : List (VaultKey × Asset)}, Smt.getValue l k = some v → (k, v) ∈ l
  | [], h => by simp [Smt.getValue] at h
  | (k₁, a₁) :: rest, h => by
    by_cases heq : k₁ = k
    · have hv : a₁ = v := by simpa [Smt.getValue, heq] using h
      subst heq; subst hv
      exact List.mem_cons_self _ _
    · have hrest : Smt.getValue rest k = some v := by
        simpa [Smt.getValue, heq] using h
      exact List.mem_cons_of_mem _ (Smt.getValue_mem hrest)

/-- Erasing via `Smt::insert` never fails. -/
theorem Smt.insert_none (cfg : SmtConfig) (entries : List (VaultKey × Asset))
    (key : VaultKey) :
    Smt.insert cfg entries key none =
      .ok (Smt.getValue entries key, Smt.eraseKey key entries) := rfl

/-- Unfolding equation for a non-erasing `Smt::insert`. -/
theorem Smt.insert_some_eq (cfg : SmtConfig) (entries : List (VaultKey × Asset))
    (key : VaultKey) (a : Asset) :
    Smt.insert cfg entries key (some a) =
      if Smt.getValue entries key = none ∧
          cfg.maxLeafEntries ≤ Smt.leafCount cfg entries key then
        .error .tooManyLeafEntries
      else
        .ok (Smt.getValue entries key, Smt.insertSorted key a entries) := rfl

/-- Replacing the value of a key that is already present never fails
(no leaf grows). -/
theorem Smt.insert_present {entries : List (VaultKey × Asset)} {key : VaultKey} {x : Asset}
    (cfg : SmtConfig) (a : Asset) (hx : Smt.getValue entries key = some x) :
    Smt.insert cfg entries key (some a) =
      .ok (some x, Smt.insertSorted key a entries) := by
  rw [Smt.insert_some_eq, hx, if_neg (by simp)]

/-- Shape of any successful non-erasing `Smt::insert`. -/
theorem Smt.insert_some_ok {cfg : SmtConfig} {entries : List (VaultKey × Asset)}
    {key : VaultKey} {a : Asset} {r : Option Asset × List (VaultKey × Asset)}
    (h : Smt.insert cfg entries key (some a) = .ok r) :
    r = (Smt.getValue entries key, Smt.insertSorted key a entries) := by
  rw [Smt.insert_some_eq] at h
  by_cases hc : Smt.getValue entries key = none ∧
      cfg.maxLeafEntries ≤ Smt.leafCount cfg entries key
  · rw [if_pos hc] at h
    cases h
  · rw [if_neg hc] at h
    cases h
    rfl

-- EXAMPLE VALUES (used by witness theorems)
-- =========================================

/-- Example hash function standing in for the external hasher. -/
def exHashFn : List Felt → Word := fun _ => Word.empty

/-- Example vault-root function standing in for the external SMT root. -/
def exRootFn : AssetVault → Word := fun _ => Word.empty

/-- Example regular account id. -/
def exAccountId : AccountId := ⟨1, 2, .RegularAccountImmutableCode, 0⟩

/-- Example fungible-faucet account id. -/
def exFaucetId : AccountId := ⟨3, 4, .FungibleFaucet, 0⟩

/-- Example existing account (nonce 1, no seed). -/
def exAccount1 : Account := ⟨exAccountId, ⟨[]⟩, ⟨Word.empty⟩, ⟨Word.empty⟩, 1, none⟩

/-- Example new account (nonce 0, with seed). -/
def exAccount0 : Account := ⟨exAccountId, ⟨[]⟩, ⟨Word.empty⟩, ⟨Word.empty⟩, 0, some Word.empty⟩

/-- Example second fungible-faucet account id. -/
def exFaucetId2 : AccountId := ⟨8, 9, .FungibleFaucet, 0⟩

/-- Example SMT configuration with roomy leaves (all keys share one
leaf, capacity 1024). -/
def exCfg : SmtConfig := ⟨fun _ => 0, 1024⟩

/-- Example SMT configuration with a single-entry leaf capacity (all
keys share one leaf), used to exhibit the leaf-capacity error. -/
def exCfgTight : SmtConfig := ⟨fun _ => 0, 1⟩

-- VAULT WELL-FORMEDNESS LEMMAS
-- ============================

/-- Sortedness component of vault well-formedness. -/
theorem AssetVault.wf_sorted {v : AssetVault} (h : v.wf = true) :
    Smt.sortedB v.entries = true := by
  simp only [AssetVault.wf, Bool.and_eq_true] at h
  exact h.1

/-- Per-entry component of vault well-formedness. -/
theorem AssetVault.wf_entry {v : AssetVault} (h : v.wf = true) {k : VaultKey} {x : Asset}
    (hm : (k, x) ∈ v.entries) : entryWfB (k, x) = true := by
  simp only [AssetVault.wf, Bool.and_eq_true, List.all_eq_true] at h
  exact h.2 _ hm

/-- A well-formed entry under a non-fungible key stores that key's
asset. -/
theorem entryWfB_nonFungible {w : Word} {x : Asset}
    (h : entryWfB (.nonFungible w, x) = true) : x = .nonFungible w := by
  cases x with
  | fungible f amt => simp [entryWfB] at h
  | nonFungible w' =>
    simp only [entryWfB, decide_eq_true_eq] at h
    rw [h]

/-- A well-formed entry under a fungible key stores a bounded fungible
asset of that faucet. -/
theorem entryWfB_fungible {f : AccountId} {x : Asset}
    (h : entryWfB (.fungible f, x) = true) :
    ∃ amt, x = .fungible f amt ∧ amt ≤ MAX_AMOUNT := by
  cases x with
  | fungible f' amt =>
    simp only [entryWfB, Bool.and_eq_true, decide_eq_true_eq] at h
    exact ⟨amt, by rw [h.1], h.2⟩
  | nonFungible w => simp [entryWfB] at h

/-- Fungible entries of a vault without zero-amount leaves are
positive. -/
theorem AssetVault.noZero_entry {v : AssetVault} (h : v.noZeroFungible = true)
    {k : VaultKey} {f : AccountId} {amt : Nat}
    (hm : (k, Asset.fungible f amt) ∈ v.entries) : amt ≠ 0 := by
  simp only [AssetVault.noZeroFungible, List.all_eq_true] at h
  have h2 := h _ hm
  simpa using h2

/-- Mapping a result preserves its error status. -/
theorem isError_map {ε α β : Type _} (g : α → β) (x : Except ε α) :
    isError (x.map g) = isError x := by
  cases x <;> rfl

/-- Balance view of a vault for a fungible faucet: 0 when no leaf is
stored under the faucet's key, the stored amount otherwise (the
computation `AssetVault::get_balance` performs after its faucet-type
check). -/
def vaultFungibleBalance (v : AssetVault) (f : AccountId) : Nat :=
  match Smt.getValue v.entries (.fungible f) with
  | none => 0
  | some asset => asset.asFungibleUnchecked.amount

-- VAULT ROUND-TRIP LEMMAS
-- =======================

/-- Removing a fungible asset immediately after successfully adding it
restores the vault, provided the vault is well-formed and free of
zero-amount leaves. -/
theorem AssetVault.add_remove_fungible (cfg : SmtConfig) (v : AssetVault) (fa : FungibleAsset)
    (hwf : v.wf = true) (hnz : v.noZeroFungible = true)
    (hok : isError (AssetVault.addFungibleAsset cfg v fa).1 = false) :
    (AssetVault.removeFungibleAsset cfg (AssetVault.addFungibleAsset cfg v fa).2 fa).1 =
      .ok fa ∧
    (AssetVault.removeFungibleAsset cfg (AssetVault.addFungibleAsset cfg v fa).2 fa).2 = v := by
  obtain ⟨f, amt⟩ := fa
  cases hget : Smt.getValue v.entries (VaultKey.fungible f) with
  | none =>
    cases hins : Smt.insert cfg v.entries (VaultKey.fungible f)
        (some (.fungible f amt)) with
    | error e =>
      exfalso
      have : isError (AssetVault.addFungibleAsset cfg v ⟨f, amt⟩).1 = true := by
        simp [AssetVault.addFungibleAsset, FungibleAsset.vaultKey, hget, hins, isError]
      rw [this] at hok
      cases hok
    | ok r =>
      have hr := Smt.insert_some_ok hins
      subst hr
      have hadd : AssetVault.addFungibleAsset cfg v ⟨f, amt⟩ =
          (.ok ⟨f, amt⟩, ⟨Smt.insertSorted (.fungible f) (.fungible f amt) v.entries⟩) := by
        simp [AssetVault.addFungibleAsset, FungibleAsset.vaultKey, hget, hins]
      rw [hadd]
      have hget₁ : Smt.getValue (Smt.insertSorted (.fungible f) (.fungible f amt) v.entries)
          (VaultKey.fungible f) = some (.fungible f amt) := Smt.getValue_insertSorted_self
      constructor
      · simp [AssetVault.removeFungibleAsset, FungibleAsset.vaultKey, hget₁,
          Asset.asFungibleUnchecked, FungibleAsset.sub, Smt.insert]
      · simp [AssetVault.removeFungibleAsset, FungibleAsset.vaultKey, hget₁,
          Asset.asFungibleUnchecked, FungibleAsset.sub, Smt.insert, Nat.sub_self,
          Smt.eraseKey_insertSorted hget]
  | some current =>
    obtain ⟨c, hcur, hcmax⟩ := entryWfB_fungible (AssetVault.wf_entry hwf
      (Smt.getValue_mem hget))
    subst hcur
    have hcz : c ≠ 0 := AssetVault.noZero_entry hnz (Smt.getValue_mem hget)
    by_cases hsum : c + amt ≤ MAX_AMOUNT
    · have hins := Smt.insert_present cfg (Asset.fungible f (c + amt)) hget
      have hadd : AssetVault.addFungibleAsset cfg v ⟨f, amt⟩ =
          (.ok ⟨f, c + amt⟩,
            ⟨Smt.insertSorted (.fungible f) (.fungible f (c + amt)) v.entries⟩) := by
        simp [AssetVault.addFungibleAsset, FungibleAsset.vaultKey, hget,
          Asset.asFungibleUnchecked, FungibleAsset.add, hsum, hins]
      rw [hadd]
      have hget₁ : Smt.getValue
          (Smt.insertSorted (.fungible f) (.fungible f (c + amt)) v.entries)
          (VaultKey.fungible f) = some (.fungible f (c + amt)) :=
        Smt.getValue_insertSorted_self
      have hsub : FungibleAsset.sub ⟨f, c + amt⟩ ⟨f, amt⟩ = some ⟨f, c⟩ := by
        simp [FungibleAsset.sub, Nat.le_add_left]
      have hins₂ := Smt.insert_present cfg (Asset.fungible f c) hget₁
      constructor
      · simp [AssetVault.removeFungibleAsset, FungibleAsset.vaultKey, hget₁,
          Asset.asFungibleUnchecked, hsub, if_neg hcz, hins₂]
      · simp only [AssetVault.removeFungibleAsset, FungibleAsset.vaultKey, hget₁,
          Asset.asFungibleUnchecked, hsub, if_neg hcz, hins₂]
        rw [Smt.insertSorted_insertSorted_same,
          Smt.insertSorted_getValue_self (AssetVault.wf_sorted hwf) hget]
    · exfalso
      have : isError (AssetVault.addFungibleAsset cfg v ⟨f, amt⟩).1 = true := by
        simp [AssetVault.addFungibleAsset, FungibleAsset.vaultKey, hget,
          Asset.asFungibleUnchecked, FungibleAsset.add, hsum, isError]
      rw [this] at hok
      cases hok

/-- Removing a non-fungible asset immediately after successfully adding
it restores the vault. -/
theorem AssetVault.add_remove_nonFungible (cfg : SmtConfig) (v : AssetVault) (w : Word)
    (hok : isError (AssetVault.addNonFungibleAsset cfg v w).1 = false) :
    (AssetVault.removeNonFungibleAsset cfg (AssetVault.addNonFungibleAsset cfg v w).2 w).1 =
      .ok w ∧
    (AssetVault.removeNonFungibleAsset cfg (AssetVault.addNonFungibleAsset cfg v w).2 w).2 =
      v := by
  cases hins : Smt.insert cfg v.entries (VaultKey.nonFungible w) (some (.nonFungible w)) with
  | error e =>
    exfalso
    have : isError (AssetVault.addNonFungibleAsset cfg v w).1 = true := by
      simp [AssetVault.addNonFungibleAsset, hins, isError]
    rw [this] at hok
    cases hok
  | ok r =>
    have hr := Smt.insert_some_ok hins
    subst hr
    cases hget : Smt.getValue v.entries (VaultKey.nonFungible w) with
    | some old =>
      exfalso
      have : isError (AssetVault.addNonFungibleAsset cfg v w).1 = true := by
        simp [AssetVault.addNonFungibleAsset, hins, hget, isError]
      rw [this] at hok
      cases hok
    | none =>
      have hadd : AssetVault.addNonFungibleAsset cfg v w =
          (.ok w, ⟨Smt.insertSorted (.nonFungible w) (.nonFungible w) v.entries⟩) := by
        simp [AssetVault.addNonFungibleAsset, hins, hget]
      rw [hadd]
      have hget₁ : Smt.getValue (Smt.insertSorted (.nonFungible w) (.nonFungible w) v.entries)
          (VaultKey.nonFungible w) = some (.nonFungible w) := Smt.getValue_insertSorted_self
      constructor
      · simp [AssetVault.removeNonFungibleAsset, Smt.insert, hget₁]
      · simp [AssetVault.removeNonFungibleAsset, Smt.insert, hget₁,
          Smt.eraseKey_insertSorted hget]

-- CLAIM C4
-- ========

/-- C4 (amended): on vaults free of explicit zero-amount fungible
leaves, a successful add followed by a remove of the same asset
restores the vault exactly; removal fails iff the asset's key is absent
or, for a fungible asset, the requested amount exceeds the stored
balance; and `get_balance` returns exactly that stored balance. -/
theorem claim4_vault_roundtrip (cfg : SmtConfig) (v : AssetVault) (a : Asset)
    (hwf : v.wf = true) (hnz : v.noZeroFungible = true) :
    (isError (AssetVault.addAsset cfg v a).1 = false →
      isError (AssetVault.removeAsset cfg (AssetVault.addAsset cfg v a).2 a).1 = false ∧
      (AssetVault.removeAsset cfg (AssetVault.addAsset cfg v a).2 a).2 = v) ∧
    (∀ f amt, a = .fungible f amt →
      (isError (AssetVault.removeAsset cfg v a).1 = true ↔
        Smt.getValue v.entries (.fungible f) = none ∨ vaultFungibleBalance v f < amt)) ∧
    (∀ w, a = .nonFungible w →
      (isError (AssetVault.removeAsset cfg v a).1 = true ↔
        Smt.getValue v.entries (.nonFungible w) = none)) ∧
    (∀ f, f.accountType = AccountType.FungibleFaucet →
      v.getBalance f = .ok (vaultFungibleBalance v f)) := by
  refine ⟨?_, ?_, ?_, ?_⟩
  · intro hadd
    cases a with
    | fungible f amt =>
      simp only [AssetVault.addAsset, AssetVault.removeAsset, isError_map] at hadd ⊢
      obtain ⟨h1, h2⟩ := AssetVault.add_remove_fungible cfg v ⟨f, amt⟩ hwf hnz hadd
      rw [h1, h2]
      exact ⟨rfl, rfl⟩
    | nonFungible w =>
      simp only [AssetVault.addAsset, AssetVault.removeAsset, isError_map] at hadd ⊢
      obtain ⟨h1, h2⟩ := AssetVault.add_remove_nonFungible cfg v w hadd
      rw [h1, h2]
      exact ⟨rfl, rfl⟩
  · intro f amt ha
    subst ha
    simp only [AssetVault.removeAsset, isError_map]
    cases hget : Smt.getValue v.entries (VaultKey.fungible f) with
    | none =>
      simp [AssetVault.removeFungibleAsset, FungibleAsset.vaultKey, hget, isError]
    | some current =>
      obtain ⟨c, hcur, _⟩ := entryWfB_fungible (AssetVault.wf_entry hwf
        (Smt.getValue_mem hget))
      subst hcur
      by_cases hle : amt ≤ c
      · have hsub : FungibleAsset.sub ⟨f, c⟩ ⟨f, amt⟩ = some ⟨f, c - amt⟩ := by
          simp [FungibleAsset.sub, hle]
        by_cases hc0 : c - amt = 0
        · simp [AssetVault.removeFungibleAsset, FungibleAsset.vaultKey, hget,
            Asset.asFungibleUnchecked, hsub, hc0, Smt.insert, isError,
            vaultFungibleBalance]
          omega
        · have hins := Smt.insert_present cfg (Asset.fungible f (c - amt)) hget
          simp [AssetVault.removeFungibleAsset, FungibleAsset.vaultKey, hget,
            Asset.asFungibleUnchecked, hsub, hc0, hins, isError, vaultFungibleBalance]
          omega
      · have hsub : FungibleAsset.sub ⟨f, c⟩ ⟨f, amt⟩ = none := by
          simp [FungibleAsset.sub, hle]
        simp [AssetVault.removeFungibleAsset, FungibleAsset.vaultKey, hget,
          Asset.asFungibleUnchecked, hsub, isError, vaultFungibleBalance]
        omega
  · intro w ha
    subst ha
    simp only [AssetVault.removeAsset, isError_map]
    cases hget : Smt.getValue v.entries (VaultKey.nonFungible w) with
    | none => simp [AssetVault.removeNonFungibleAsset, Smt.insert, hget, isError]
    | some old => simp [AssetVault.removeNonFungibleAsset, Smt.insert, hget, isError]
  · intro f hf
    cases hget : Smt.getValue v.entries (VaultKey.fungible f) <;>
      simp [AssetVault.getBalance, hf, vaultFungibleBalance, hget]

/-- Showing C4 false as stated: a vault legitimately constructed by
`AssetVault::new` from a zero-amount fungible asset loses its leaf in an
add/remove round trip, so the resulting vault differs from the original
one even though both operations succeed. -/
theorem claim4_roundtrip_counterexample :
    AssetVault.new [Asset.fungible ⟨5, 6, .FungibleFaucet, 0⟩ 0] =
      .ok ⟨[(.fungible ⟨5, 6, .FungibleFaucet, 0⟩,
        .fungible ⟨5, 6, .FungibleFaucet, 0⟩ 0)]⟩ ∧
    (AssetVault.mk [(.fungible ⟨5, 6, .FungibleFaucet, 0⟩,
        .fungible ⟨5, 6, .FungibleFaucet, 0⟩ 0)]).wf = true ∧
    (AssetVault.addAsset exCfg (AssetVault.mk [(.fungible ⟨5, 6, .FungibleFaucet, 0⟩,
        .fungible ⟨5, 6, .FungibleFaucet, 0⟩ 0)])
      (Asset.fungible ⟨5, 6, .FungibleFaucet, 0⟩ 0)).1 =
      .ok (Asset.fungible ⟨5, 6, .FungibleFaucet, 0⟩ 0) ∧
    (AssetVault.removeAsset exCfg
      (AssetVault.addAsset exCfg (AssetVault.mk [(.fungible ⟨5, 6, .FungibleFaucet, 0⟩,
        .fungible ⟨5, 6, .FungibleFaucet, 0⟩ 0)])
      (Asset.fungible ⟨5, 6, .FungibleFaucet, 0⟩ 0)).2
      (Asset.fungible ⟨5, 6, .FungibleFaucet, 0⟩ 0)).1 =
      .ok (Asset.fungible ⟨5, 6, .FungibleFaucet, 0⟩ 0) ∧
    (AssetVault.removeAsset exCfg
      (AssetVault.addAsset exCfg (AssetVault.mk [(.fungible ⟨5, 6, .FungibleFaucet, 0⟩,
        .fungible ⟨5, 6, .FungibleFaucet, 0⟩ 0)])
      (Asset.fungible ⟨5, 6, .FungibleFaucet, 0⟩ 0)).2
      (Asset.fungible ⟨5, 6, .FungibleFaucet, 0⟩ 0)).2 ≠
      AssetVault.mk [(.fungible ⟨5, 6, .FungibleFaucet, 0⟩,
        .fungible ⟨5, 6, .FungibleFaucet, 0⟩ 0)] := by
  refine ⟨rfl, rfl, rfl, rfl, ?_⟩
  decide

/-- Witness for C4 (amended) at a concrete empty vault and a fungible
asset of amount 5. -/
theorem claim4_vault_roundtrip_witness :
    isError (AssetVault.removeAsset exCfg
      (AssetVault.addAsset exCfg (AssetVault.mk []) (.fungible exFaucetId 5)).2
      (.fungible exFaucetId 5)).1 = false ∧
    (AssetVault.removeAsset exCfg
      (AssetVault.addAsset exCfg (AssetVault.mk []) (.fungible exFaucetId 5)).2
      (.fungible exFaucetId 5)).2 = AssetVault.mk [] :=
  (claim4_vault_roundtrip exCfg ⟨[]⟩ (.fungible exFaucetId 5) (by decide) (by decide)).1
    (by decide)

-- CLAIM C9
-- ========

/-- C9: a failing `add_asset` or `remove_asset` leaves a well-formed
vault with exactly its prior entries (and hence its prior root): the
leaf-capacity error fails atomically inside the tree primitive, and the
non-fungible paths that insert into the tree before raising the
duplicate-add or missing-remove error re-insert the value the
(collision-free) key already determines. -/
theorem claim9_vault_error_preserves (cfg : SmtConfig) (v : AssetVault) (a : Asset)
    (hwf : v.wf = true) :
    (isError (AssetVault.addAsset cfg v a).1 = true → (AssetVault.addAsset cfg v a).2 = v) ∧
    (isError (AssetVault.removeAsset cfg v a).1 = true →
      (AssetVault.removeAsset cfg v a).2 = v) := by
  constructor
  · intro herr
    cases a with
    | fungible f amt =>
      simp only [AssetVault.addAsset, isError_map] at herr ⊢
      cases hget : Smt.getValue v.entries (VaultKey.fungible f) with
      | none =>
        cases hins : Smt.insert cfg v.entries (VaultKey.fungible f)
            (some (.fungible f amt)) with
        | error e =>
          simp [AssetVault.addFungibleAsset, FungibleAsset.vaultKey, hget, hins]
        | ok r =>
          exfalso
          simp [AssetVault.addFungibleAsset, FungibleAsset.vaultKey, hget, hins,
            isError] at herr
      | some current =>
        cases haddf : current.asFungibleUnchecked.add ⟨f, amt⟩ with
        | none =>
          simp [AssetVault.addFungibleAsset, FungibleAsset.vaultKey, hget, haddf]
        | some n =>
          cases hins : Smt.insert cfg v.entries (VaultKey.fungible n.faucetId)
              (some (.fungible n.faucetId n.amount)) with
          | error e =>
            simp [AssetVault.addFungibleAsset, FungibleAsset.vaultKey, hget, haddf, hins]
          | ok r =>
            exfalso
            simp [AssetVault.addFungibleAsset, FungibleAsset.vaultKey, hget, haddf, hins,
              isError] at herr
    | nonFungible w =>
      simp only [AssetVault.addAsset, isError_map] at herr ⊢
      cases hins : Smt.insert cfg v.entries (VaultKey.nonFungible w)
          (some (.nonFungible w)) with
      | error e => simp [AssetVault.addNonFungibleAsset, hins]
      | ok r =>
        have hr := Smt.insert_some_ok hins
        subst hr
        cases hget : Smt.getValue v.entries (VaultKey.nonFungible w) with
        | none =>
          exfalso
          simp [AssetVault.addNonFungibleAsset, hins, hget, isError] at herr
        | some old =>
          have hold : old = .nonFungible w :=
            entryWfB_nonFungible (AssetVault.wf_entry hwf (Smt.getValue_mem hget))
          subst hold
          simp [AssetVault.addNonFungibleAsset, hins, hget,
            Smt.insertSorted_getValue_self (AssetVault.wf_sorted hwf) hget]
  · intro herr
    cases a with
    | fungible f amt =>
      simp only [AssetVault.removeAsset, isError_map] at herr ⊢
      cases hget : Smt.getValue v.entries (VaultKey.fungible f) with
      | none =>
        simp [AssetVault.removeFungibleAsset, FungibleAsset.vaultKey, hget]
      | some current =>
        cases hsub : current.asFungibleUnchecked.sub ⟨f, amt⟩ with
        | none =>
          simp [AssetVault.removeFungibleAsset, FungibleAsset.vaultKey, hget, hsub]
        | some n =>
          cases hins : Smt.insert cfg v.entries (VaultKey.fungible n.faucetId)
              (if n.amount = 0 then none else some (.fungible n.faucetId n.amount)) with
          | error e =>
            simp [AssetVault.removeFungibleAsset, FungibleAsset.vaultKey, hget, hsub, hins]
          | ok r =>
            exfalso
            simp [AssetVault.removeFungibleAsset, FungibleAsset.vaultKey, hget, hsub, hins,
              isError] at herr
    | nonFungible w =>
      simp only [AssetVault.removeAsset, isError_map] at herr ⊢
      cases hget : Smt.getValue v.entries (VaultKey.nonFungible w) with
      | none =>
        simp [AssetVault.removeNonFungibleAsset, Smt.insert, hget,
          Smt.eraseKey_of_getValue_none hget]
      | some old =>
        exfalso
        simp [AssetVault.removeNonFungibleAsset, Smt.insert, hget, isError] at herr

/-- Witness for C9 at a concrete duplicate non-fungible add and at a
concrete fungible add rejected by a full leaf (capacity 1), both leaving
the vault unchanged. -/
theorem claim9_vault_error_preserves_witness :
    ((AssetVault.addAsset exCfg
      (AssetVault.mk [(.nonFungible ⟨7, 0, 0, 0⟩, .nonFungible ⟨7, 0, 0, 0⟩)])
      (.nonFungible ⟨7, 0, 0, 0⟩)).2 =
      AssetVault.mk [(.nonFungible ⟨7, 0, 0, 0⟩, .nonFungible ⟨7, 0, 0, 0⟩)]) ∧
    ((AssetVault.addAsset exCfgTight
      (AssetVault.mk [(.fungible exFaucetId, .fungible exFaucetId 7)])
      (.fungible exFaucetId2 5)).1 =
      .error (.MaxLeafEntriesExceeded .tooManyLeafEntries)) ∧
    ((AssetVault.addAsset exCfgTight
      (AssetVault.mk [(.fungible exFaucetId, .fungible exFaucetId 7)])
      (.fungible exFaucetId2 5)).2 =
      AssetVault.mk [(.fungible exFaucetId, .fungible exFaucetId 7)]) :=
  ⟨(claim9_vault_error_preserves exCfg
      ⟨[(.nonFungible ⟨7, 0, 0, 0⟩, .nonFungible ⟨7, 0, 0, 0⟩)]⟩
      (.nonFungible ⟨7, 0, 0, 0⟩) (by decide)).1 (by decide),
   rfl,
   (claim9_vault_error_preserves exCfgTight
      ⟨[(.fungible exFaucetId, .fungible exFaucetId 7)]⟩
      (.fungible exFaucetId2 5) (by decide)).1 (by decide)⟩

-- CLAIM C1
-- ========

/-- C1: the commitment of an account is the hash of the 16-element
sequence `[id_suffix, id_prefix, 0, nonce, vault_root (4 elements),
storage_commitment (4 elements), code_commitment (4 elements)]`, and the
initial commitment is the zero word for nonce 0 and the commitment
itself otherwise. -/
theorem claim1_account_commitment (hashElements : List Felt → Word)
    (vaultRoot : AssetVault → Word) (a : Account) :
    a.commitment hashElements vaultRoot =
      hashElements ([a.id.sfx, a.id.pfx, 0, a.nonce] ++ (vaultRoot a.vault).toList ++
        a.storage.commitment.toList ++ a.code.commitment.toList) ∧
    (a.nonce = 0 → a.initialCommitment hashElements vaultRoot = Word.empty) ∧
    (a.nonce ≠ 0 →
      a.initialCommitment hashElements vaultRoot = a.commitment hashElements vaultRoot) := by
  refine ⟨rfl, fun h0 => ?_, fun h1 => ?_⟩
  · simp [Account.initialCommitment, Account.isNew, h0]
  · simp [Account.initialCommitment, Account.isNew, h1]

/-- Witness for C1 at concrete accounts of nonce 0 and nonce 1. -/
theorem claim1_account_commitment_witness :
    exAccount0.initialCommitment exHashFn exRootFn = Word.empty ∧
    exAccount1.initialCommitment exHashFn exRootFn =
      exAccount1.commitment exHashFn exRootFn :=
  ⟨(claim1_account_commitment exHashFn exRootFn exAccount0).2.1 (by decide),
   (claim1_account_commitment exHashFn exRootFn exAccount1).2.2 (by decide)⟩

-- CLAIM C8
-- ========

/-- C8: the advice stack is built by pushing exactly the listed items in
the listed order (the script root falling back to the zero word when the
transaction has no script). -/
theorem claim8_build_stack (tx : StackTxInputs) :
    build_stack tx =
      tx.blockHeader.prevBlockCommitment.toList ++
      tx.blockHeader.chainCommitment.toList ++
      tx.blockHeader.accountRoot.toList ++
      tx.blockHeader.nullifierRoot.toList ++
      tx.blockHeader.txCommitment.toList ++
      tx.blockHeader.txKernelCommitment.toList ++
      tx.blockHeader.proofCommitment.toList ++
      [tx.blockHeader.blockNum, tx.blockHeader.version, tx.blockHeader.timestamp, 0] ++
      [tx.blockHeader.feeParameters.nativeAssetId.sfx,
        tx.blockHeader.feeParameters.nativeAssetId.pfx,
        tx.blockHeader.feeParameters.verificationBaseFee, 0] ++
      [0, 0, 0, 0] ++
      tx.blockHeader.noteRoot.toList ++
      [tx.account.id.sfx, tx.account.id.pfx, 0, tx.account.nonce] ++
      tx.account.vaultRoot.toList ++
      tx.account.storageCommitment.toList ++
      tx.account.codeCommitment.toList ++
      [tx.numInputNotes] ++
      (match tx.txArgs.txScriptRoot with
        | some root => root
        | none => Word.empty).toList ++
      tx.txArgs.txScriptArgs.toList ++
      tx.txArgs.authArgs.toList := by
  cases h : tx.txArgs.txScriptRoot <;>
    simp [build_stack, h, Option.getD, List.append_assoc]

-- CLAIM C10
-- =========

/-- C10: `AssetVault::get_balance` fails exactly on ids that are not
fungible faucets; for a fungible faucet it never fails, returning 0 when
no asset of that faucet is stored and the stored amount otherwise. -/
theorem claim10_get_balance (v : AssetVault) (faucetId : AccountId) :
    (faucetId.accountType ≠ AccountType.FungibleFaucet ↔
      v.getBalance faucetId = .error (.NotAFungibleFaucetId faucetId)) ∧
    (faucetId.accountType = AccountType.FungibleFaucet →
      isError (v.getBalance faucetId) = false) ∧
    (faucetId.accountType = AccountType.FungibleFaucet →
      Smt.getValue v.entries (.fungible faucetId) = none →
      v.getBalance faucetId = .ok 0) ∧
    (∀ f amt, faucetId.accountType = AccountType.FungibleFaucet →
      Smt.getValue v.entries (.fungible faucetId) = some (.fungible f amt) →
      v.getBalance faucetId = .ok amt) := by
  by_cases ht : faucetId.accountType = AccountType.FungibleFaucet
  · refine ⟨?_, fun _ => ?_, fun _ hnone => ?_, fun f amt _ hsome => ?_⟩
    · constructor
      · intro hc
        exact absurd ht hc
      · intro herr
        simp [AssetVault.getBalance, ht] at herr
        cases hg : Smt.getValue v.entries (.fungible faucetId) <;> simp [hg] at herr
    · cases hg : Smt.getValue v.entries (.fungible faucetId) <;>
        simp [AssetVault.getBalance, ht, hg, isError]
    · simp [AssetVault.getBalance, ht, hnone]
    · simp [AssetVault.getBalance, ht, hsome, Asset.asFungibleUnchecked]
  · refine ⟨?_, fun hc => absurd hc ht, fun hc => absurd hc ht,
      fun _ _ hc => absurd hc ht⟩
    simp [AssetVault.getBalance, ht]

-- FELT ARITHMETIC AND NONCE LEMMAS
-- ================================

/-- Wrap detection of the source's overflow check: the incremented nonce
compares below the old one exactly when the mod-p sum wrapped. -/
theorem felt_add_wrap_iff (a d : Felt) : (a + d).val < a.val ↔ p ≤ a.val + d.val := by
  rw [Fin.val_add]
  rcases Nat.lt_or_ge (a.val + d.val) p with hlt | hge
  · rw [Nat.mod_eq_of_lt hlt]
    omega
  · have hd : d.val < p := d.isLt
    have ha : a.val < p := a.isLt
    have hm : (a.val + d.val) % p = a.val + d.val - p := by
      rw [Nat.mod_eq_sub_mod hge, Nat.mod_eq_of_lt (by omega)]
    rw [hm]
    omega

/-- Characterization of `Account::increment_nonce`: overflow yields the
`NonceOverflow` error, otherwise the nonce is the field sum and the seed
is cleared exactly when the updated account is no longer new. -/
theorem Account.incrementNonce_char {a : Account} {δ : Felt} :
    (p ≤ a.nonce.val + δ.val →
      a.incrementNonce δ = .error (.NonceOverflow a.nonce δ (a.nonce + δ))) ∧
    (a.nonce.val + δ.val < p →
      a.incrementNonce δ =
        .ok { a with nonce := a.nonce + δ,
                     seed := if (a.nonce + δ : Felt) = 0 then a.seed else none }) := by
  constructor
  · intro hw
    have hlt : (a.nonce + δ).val < a.nonce.val := (felt_add_wrap_iff a.nonce δ).mpr hw
    simp [Account.incrementNonce, hlt]
  · intro hnw
    have hlt : ¬ (a.nonce + δ).val < a.nonce.val := by
      rw [felt_add_wrap_iff]
      omega
    have heq : a.incrementNonce δ =
        if (a.nonce + δ).val < a.nonce.val then
          Except.error (.NonceOverflow a.nonce δ (a.nonce + δ))
        else if ({ a with nonce := a.nonce + δ } : Account).isNew then
          Except.ok { a with nonce := a.nonce + δ }
        else Except.ok { a with nonce := a.nonce + δ, seed := none } := rfl
    rw [heq, if_neg hlt]
    by_cases hz : (a.nonce + δ : Felt) = 0
    · rw [if_pos (by simp [Account.isNew, hz]), if_pos hz]
    · rw [if_neg (by simp [Account.isNew, hz]), if_neg hz]

/-- Field bookkeeping of a successful nonce increment. -/
theorem Account.incrementNonce_ok_fields {a : Account} {δ : Felt} {a' : Account}
    (h : a.incrementNonce δ = .ok a') :
    a'.nonce = a.nonce + δ ∧ a'.id = a.id ∧ a'.vault = a.vault ∧
    a'.storage = a.storage ∧ a'.code = a.code ∧
    (a'.nonce ≠ 0 → a'.seed = none) ∧ (a'.nonce = 0 → a'.seed = a.seed) ∧
    a.nonce.val ≤ a'.nonce.val := by
  rcases Nat.lt_or_ge (a.nonce.val + δ.val) p with hnw | hw
  · have hok := Account.incrementNonce_char.2 hnw
    rw [hok] at h
    cases h
    refine ⟨rfl, rfl, rfl, rfl, rfl, fun hnz => ?_, fun hz => ?_, ?_⟩
    · simp only [if_neg hnz]
    · simp only [if_pos hz]
    · have : (a.nonce + δ).val = a.nonce.val + δ.val := by
        rw [Fin.val_add, Nat.mod_eq_of_lt hnw]
      simp only [this]
      omega
  · have herr := Account.incrementNonce_char.1 hw
    rw [herr] at h
    cases h

/-- Failure characterization of `Account::increment_nonce`. -/
theorem Account.incrementNonce_error_iff {a : Account} {δ : Felt} :
    a.incrementNonce δ = .error (.NonceOverflow a.nonce δ (a.nonce + δ)) ↔
      p ≤ a.nonce.val + δ.val := by
  constructor
  · intro h
    by_contra hnw
    have hok := (Account.incrementNonce_char (a := a) (δ := δ)).2 (by omega)
    rw [hok] at h
    cases h
  · exact (Account.incrementNonce_char (a := a) (δ := δ)).1

/-- Decomposition of a successful `Account::apply_delta`. -/
theorem Account.applyDelta_ok_decomp {σ : Type} {cfg : SmtConfig}
    {applyStorage : AccountStorage → σ → Except AccountError AccountStorage}
    {a : Account} {d : AccountDelta σ} {a' : Account}
    (h : Account.applyDelta cfg applyStorage a d = some (.ok a')) :
    ∃ v' s', AssetVault.applyDelta cfg a.vault d.vault = some (.ok v') ∧
      applyStorage a.storage d.storage = .ok s' ∧
      Account.incrementNonce { a with vault := v', storage := s' } d.nonceDelta = .ok a' := by
  unfold Account.applyDelta at h
  cases hv : AssetVault.applyDelta cfg a.vault d.vault with
  | none => rw [hv] at h; simp at h
  | some rv =>
    cases rv with
    | error e => rw [hv] at h; simp at h
    | ok v' =>
      rw [hv] at h
      cases hs : applyStorage a.storage d.storage with
      | error e => rw [hs] at h; simp at h
      | ok s' =>
        rw [hs] at h
        exact ⟨v', s', rfl, rfl, by simpa using h⟩

/-- A wrapped nonce sum makes `Account::apply_delta` fail whenever it
returns at all. -/
theorem Account.applyDelta_wrap_isError {σ : Type} {cfg : SmtConfig}
    {applyStorage : AccountStorage → σ → Except AccountError AccountStorage}
    {a : Account} {d : AccountDelta σ} {r : Except AccountError Account}
    (hw : p ≤ a.nonce.val + d.nonceDelta.val)
    (h : Account.applyDelta cfg applyStorage a d = some r) : isError r = true := by
  unfold Account.applyDelta at h
  cases hv : AssetVault.applyDelta cfg a.vault d.vault with
  | none => rw [hv] at h; simp at h
  | some rv =>
    cases rv with
    | error e =>
      rw [hv] at h
      simp only [Option.some.injEq] at h
      rw [← h]
      rfl
    | ok v' =>
      rw [hv] at h
      cases hs : applyStorage a.storage d.storage with
      | error e =>
        rw [hs] at h
        simp only [Option.some.injEq] at h
        rw [← h]
        rfl
      | ok s' =>
        rw [hs] at h
        simp only [Option.some.injEq] at h
        have herr := (Account.incrementNonce_char
          (a := { a with vault := v', storage := s' }) (δ := d.nonceDelta)).1 hw
        rw [herr] at h
        rw [← h]
        rfl

/-- Characterization of a successful `Account::new`. -/
theorem Account.new_ok_char {accountIdNew : Word → Nat → Word → Word → Option AccountId}
    {id : AccountId} {vault : AssetVault} {storage : AccountStorage} {code : AccountCode}
    {nonce : Felt} {seed : Option Word} {a : Account}
    (h : Account.new accountIdNew id vault storage code nonce seed = .ok a) :
    a = ⟨id, vault, storage, code, nonce, seed⟩ ∧ (seed.isSome ↔ nonce = 0) ∧
    (∀ s, seed = some s →
      accountIdNew s id.version code.commitment storage.commitment = some id) := by
  by_cases h0 : nonce = (0 : Felt)
  · subst h0
    cases seed with
    | none => simp [Account.new, validate_account_seed] at h
    | some s =>
      cases hid : accountIdNew s id.version code.commitment storage.commitment with
      | none => simp [Account.new, validate_account_seed, hid] at h
      | some aid =>
        by_cases haid : aid = id
        · have ha : a = ⟨id, vault, storage, code, 0, some s⟩ := by
            simp [Account.new, validate_account_seed, hid, haid] at h
            exact h.symm
          exact ⟨ha, by simp, fun s' hs' => by
            cases hs'
            rw [hid, haid]⟩
        · simp [Account.new, validate_account_seed, hid, haid] at h
  · cases seed with
    | none =>
      have ha : a = ⟨id, vault, storage, code, nonce, none⟩ := by
        simp [Account.new, validate_account_seed, h0] at h
        exact h.symm
      exact ⟨ha, by simp [h0], fun s' hs' => by cases hs'⟩
    | some s => simp [Account.new, validate_account_seed, h0] at h

/-- A freshly constructed account with positive nonce has no seed. -/
theorem Account.new_ok_seed_inv {accountIdNew : Word → Nat → Word → Word → Option AccountId}
    {id : AccountId} {vault : AssetVault} {storage : AccountStorage} {code : AccountCode}
    {nonce : Felt} {seed : Option Word} {a : Account}
    (h : Account.new accountIdNew id vault storage code nonce seed = .ok a)
    (hnz : a.nonce ≠ 0) : a.seed = none := by
  obtain ⟨ha, hiff, _⟩ := Account.new_ok_char h
  subst ha
  dsimp only at hnz ⊢
  rw [← Option.not_isSome_iff_eq_none]
  intro hsome
  exact hnz (hiff.mp hsome)

-- CLAIM C2
-- ========

/-- C2: accounts built by `Account::new` carry a seed exactly when the
nonce is zero and the seed re-derives the account id (a mismatching
derivation is rejected with `AccountIdSeedMismatch`); a successful nonce
increment that leaves the nonce positive clears the seed; consequently
every reachable account with positive nonce has no seed. -/
theorem claim2_account_seed_invariant {σ : Type} (cfg : SmtConfig)
    (accountIdNew : Word → Nat → Word → Word → Option AccountId)
    (applyStorage : AccountStorage → σ → Except AccountError AccountStorage) :
    (∀ id vault storage code nonce seed a,
      Account.new accountIdNew id vault storage code nonce seed = .ok a →
        a = ⟨id, vault, storage, code, nonce, seed⟩ ∧
        (a.seed.isSome ↔ a.nonce = 0) ∧
        ∀ s, a.seed = some s →
          accountIdNew s a.id.version a.code.commitment a.storage.commitment = some a.id) ∧
    (∀ id vault storage code s id',
      accountIdNew s id.version code.commitment storage.commitment = some id' → id' ≠ id →
      Account.new accountIdNew id vault storage code 0 (some s) =
        .error (.AccountIdSeedMismatch id id')) ∧
    (∀ (a : Account) (δ : Felt) a', a.incrementNonce δ = .ok a' → a'.nonce ≠ 0 →
      a'.seed = none) ∧
    (∀ a, Account.Reachable cfg accountIdNew applyStorage a → a.nonce ≠ 0 → a.seed = none) := by
  refine ⟨?_, ?_, ?_, ?_⟩
  · intro id vault storage code nonce seed a h
    obtain ⟨ha, hiff, hder⟩ := Account.new_ok_char h
    subst ha
    exact ⟨rfl, hiff, hder⟩
  · intro id vault storage code s id' hid hne
    simp [Account.new, validate_account_seed, hid, hne]
  · intro a δ a' h hnz
    exact (Account.incrementNonce_ok_fields h).2.2.2.2.2.1 hnz
  · intro a hr
    induction hr with
    | mk_new h =>
      intro hnz
      exact Account.new_ok_seed_inv h hnz
    | step_inc hr h ih =>
      intro hnz
      exact (Account.incrementNonce_ok_fields h).2.2.2.2.2.1 hnz
    | step_delta hr h ih =>
      intro hnz
      obtain ⟨v', s', _, _, hinc⟩ := Account.applyDelta_ok_decomp h
      exact (Account.incrementNonce_ok_fields hinc).2.2.2.2.2.1 hnz

-- CLAIM C3
-- ========

/-- C3: a successful delta application adds the nonce delta in the
field and clears a present seed when the new nonce is positive; a nonce
sum wrapping past the field modulus makes the application fail, the
nonce step failing precisely with `NonceOverflow`; a successful nonce
increment never decreases the nonce. -/
theorem claim3_apply_delta_nonce {σ : Type} (cfg : SmtConfig)
    (applyStorage : AccountStorage → σ → Except AccountError AccountStorage) :
    (∀ (a : Account) (d : AccountDelta σ) a',
      Account.applyDelta cfg applyStorage a d = some (.ok a') →
        a'.nonce = a.nonce + d.nonceDelta ∧
        (a.seed.isSome → a'.nonce ≠ 0 → a'.seed = none)) ∧
    (∀ (a : Account) (d : AccountDelta σ) r,
      p ≤ a.nonce.val + d.nonceDelta.val →
      Account.applyDelta cfg applyStorage a d = some r → isError r = true) ∧
    (∀ (a : Account) (δ : Felt),
      a.incrementNonce δ = .error (.NonceOverflow a.nonce δ (a.nonce + δ)) ↔
        p ≤ a.nonce.val + δ.val) ∧
    (∀ (a : Account) (δ : Felt) a', a.incrementNonce δ = .ok a' →
      a.nonce.val ≤ a'.nonce.val) := by
  refine ⟨?_, ?_, ?_, ?_⟩
  · intro a d a' h
    obtain ⟨v', s', _, _, hinc⟩ := Account.applyDelta_ok_decomp h
    obtain ⟨hn, _, _, _, _, hseed, _, _⟩ := Account.incrementNonce_ok_fields hinc
    exact ⟨hn, fun _ hnz => hseed hnz⟩
  · intro a d r hw h
    exact Account.applyDelta_wrap_isError hw h
  · intro a δ
    exact Account.incrementNonce_error_iff
  · intro a δ a' h
    exact (Account.incrementNonce_ok_fields h).2.2.2.2.2.2.2

-- EXAMPLE VALUES FOR ACCOUNT WITNESSES
-- ====================================

/-- Example id derivation standing in for `AccountId::new`. -/
def exIdNew : Word → Nat → Word → Word → Option AccountId := fun _ _ _ _ => some exAccountId

/-- Example storage-delta application. -/
def exApplyStorage : AccountStorage → Unit → Except AccountError AccountStorage :=
  fun s _ => .ok s

/-- Example account after one nonce increment of `exAccount1`. -/
def exAccount2 : Account := ⟨exAccountId, ⟨[]⟩, ⟨Word.empty⟩, ⟨Word.empty⟩, 2, none⟩

/-- Example empty account delta with nonce delta 1. -/
def exDelta : AccountDelta Unit := ⟨exAccountId, (), ⟨[], []⟩, 1⟩

/-- Witness for C2 at a concretely constructed new account. -/
theorem claim2_account_seed_invariant_witness :
    exAccount0.seed.isSome ↔ exAccount0.nonce = 0 :=
  ((claim2_account_seed_invariant exCfg exIdNew exApplyStorage).1 exAccountId ⟨[]⟩
    ⟨Word.empty⟩ ⟨Word.empty⟩ 0 (some Word.empty) exAccount0 rfl).2.1

/-- Witness for C3 at a concrete delta application with nonce delta 1. -/
theorem claim3_apply_delta_nonce_witness :
    exAccount2.nonce = exAccount1.nonce + exDelta.nonceDelta :=
  ((claim3_apply_delta_nonce exCfg exApplyStorage).1 exAccount1 exDelta exAccount2 rfl).1

-- FUNGIBLE-ASSET ARITHMETIC LEMMAS
-- ================================

/-- Characterization of a successful `FungibleAsset::new`. -/
theorem FungibleAsset.new_some {f : AccountId} {n : Nat} {x : FungibleAsset}
    (h : FungibleAsset.new f n = some x) :
    x = ⟨f, n⟩ ∧ f.accountType = AccountType.FungibleFaucet ∧ n ≤ MAX_AMOUNT := by
  unfold FungibleAsset.new at h
  split at h
  · rename_i hc
    cases h
    exact ⟨rfl, hc.1, hc.2⟩
  · cases h

/-- Characterization of a successful fungible addition. -/
theorem FungibleAsset.add_some {a b x : FungibleAsset} (h : FungibleAsset.add a b = some x) :
    x = ⟨a.faucetId, a.amount + b.amount⟩ ∧ a.faucetId = b.faucetId ∧
      a.amount + b.amount ≤ MAX_AMOUNT := by
  unfold FungibleAsset.add at h
  split at h
  · rename_i hc
    cases h
    exact ⟨rfl, hc.1, hc.2⟩
  · cases h

/-- Characterization of a successful fungible subtraction. -/
theorem FungibleAsset.sub_some {a b x : FungibleAsset} (h : FungibleAsset.sub a b = some x) :
    x = ⟨a.faucetId, a.amount - b.amount⟩ ∧ a.faucetId = b.faucetId ∧
      b.amount ≤ a.amount := by
  unfold FungibleAsset.sub at h
  split at h
  · rename_i hc
    cases h
    exact ⟨rfl, hc.1, hc.2⟩
  · cases h

-- CLAIM C6 SUPPORT
-- ================

/-- Initial native-asset balance read from the fetched witness (0 when
the asset is absent from the witness). -/
def witnessInitialAmount (w : AssetWitness) : Nat :=
  match w.found with
  | some (.fungible _ amt) => amt
  | _ => 0

/-- Faucet id of the initial fee asset: the witness's asset when it is
fungible, the fee asset's faucet otherwise. -/
def witnessInitialFaucet (w : AssetWitness) (feeAsset : FungibleAsset) : AccountId :=
  match w.found with
  | some (.fungible f _) => f
  | _ => feeAsset.faucetId

/-- Core computation of the fee handler after the initial fee asset is
fixed: the current amount equals the initial amount plus the tracked
delta, and the result is the insufficient-fee error or the witness
mutations according to the fee comparison. -/
theorem fee_event_aux (witness : AssetWitness) (trackerAmount : AccountId → Option Int)
    (feeAsset : FungibleAsset) (ini : FungibleAsset)
    (r : Except TransactionKernelError (List AdviceMutation))
    (h : (match FungibleAsset.new ini.faucetId
            ((trackerAmount ini.faucetId).getD 0).natAbs with
          | none => none
          | some feeAssetDelta =>
            match (if 0 < (trackerAmount ini.faucetId).getD 0 then ini.add feeAssetDelta
                   else ini.sub feeAssetDelta) with
            | none => none
            | some currentFeeAsset =>
              if currentFeeAsset.amount < feeAsset.amount then
                some (.error (.InsufficientFee currentFeeAsset.amount feeAsset.amount))
              else some (.ok (asset_witness_to_advice_mutation witness))) = some r) :
    ∃ c : Nat, (c : Int) = (ini.amount : Int) + (trackerAmount ini.faucetId).getD 0 ∧
      r = if c < feeAsset.amount then .error (.InsufficientFee c feeAsset.amount)
          else .ok (asset_witness_to_advice_mutation witness) := by
  split at h
  · cases h
  · rename_i fd hnew
    obtain ⟨hfd, _, _⟩ := FungibleAsset.new_some hnew
    subst hfd
    split at h
    · cases h
    · rename_i c hcur
      by_cases hpos : (0 : Int) < (trackerAmount ini.faucetId).getD 0
      · rw [if_pos hpos] at hcur
        obtain ⟨hc, _, _⟩ := FungibleAsset.add_some hcur
        subst hc
        dsimp only at h
        refine ⟨ini.amount + ((trackerAmount ini.faucetId).getD 0).natAbs, by omega, ?_⟩
        split at h
        · rename_i hlt
          cases h
          rw [if_pos hlt]
        · rename_i hlt
          cases h
          rw [if_neg hlt]
      · rw [if_neg hpos] at hcur
        obtain ⟨hc, _, hble⟩ := FungibleAsset.sub_some hcur
        subst hc
        dsimp only at h
        have hble' : ((trackerAmount ini.faucetId).getD 0).natAbs ≤ ini.amount := hble
        refine ⟨ini.amount - ((trackerAmount ini.faucetId).getD 0).natAbs, by omega, ?_⟩
        split at h
        · rename_i hlt
          cases h
          rw [if_pos hlt]
        · rename_i hlt
          cases h
          rw [if_neg hlt]

/-- Shape of any non-panicking run of the fee handler: the compared
current balance is exactly the witness's initial amount plus the tracked
delta. -/
theorem fee_event_core (witness : AssetWitness) (trackerAmount : AccountId → Option Int)
    (feeAsset : FungibleAsset) (r : Except TransactionKernelError (List AdviceMutation))
    (h : on_before_tx_fee_removed_from_account witness trackerAmount feeAsset = some r) :
    ∃ c : Nat, (c : Int) = (witnessInitialAmount witness : Int) +
        (trackerAmount (witnessInitialFaucet witness feeAsset)).getD 0 ∧
      r = if c < feeAsset.amount then .error (.InsufficientFee c feeAsset.amount)
          else .ok (asset_witness_to_advice_mutation witness) := by
  unfold on_before_tx_fee_removed_from_account at h
  cases hfound : witness.found with
  | none =>
    rw [hfound] at h
    cases hnew0 : FungibleAsset.new feeAsset.faucetId 0 with
    | none => rw [hnew0] at h; cases h
    | some ini0 =>
      rw [hnew0] at h
      obtain ⟨hini, _, _⟩ := FungibleAsset.new_some hnew0
      subst hini
      simpa [witnessInitialAmount, witnessInitialFaucet, hfound] using
        fee_event_aux witness trackerAmount feeAsset ⟨feeAsset.faucetId, 0⟩ r h
  | some asset =>
    cases asset with
    | fungible f amt =>
      rw [hfound] at h
      simpa [witnessInitialAmount, witnessInitialFaucet, hfound] using
        fee_event_aux witness trackerAmount feeAsset ⟨f, amt⟩ r h
    | nonFungible w =>
      rw [hfound] at h
      cases hnew0 : FungibleAsset.new feeAsset.faucetId 0 with
      | none => rw [hnew0] at h; cases h
      | some ini0 =>
        rw [hnew0] at h
        obtain ⟨hini, _, _⟩ := FungibleAsset.new_some hnew0
        subst hini
        simpa [witnessInitialAmount, witnessInitialFaucet, hfound] using
          fee_event_aux witness trackerAmount feeAsset ⟨feeAsset.faucetId, 0⟩ r h

-- CLAIM C6
-- ========

/-- C6: whenever the fee handler completes without panicking, it fails
iff the current balance (the witness's initial balance, 0 when the asset
is absent, plus the tracked fungible delta for the fee faucet) is
strictly below the fee amount, the error carrying exactly that balance
and the fee; otherwise it returns the witness's merkle-store and
advice-map mutations. -/
theorem claim6_fee_event (witness : AssetWitness) (trackerAmount : AccountId → Option Int)
    (feeAsset : FungibleAsset) (r : Except TransactionKernelError (List AdviceMutation))
    (h : on_before_tx_fee_removed_from_account witness trackerAmount feeAsset = some r) :
    (isError r = true ↔
      (witnessInitialAmount witness : Int) +
        (trackerAmount (witnessInitialFaucet witness feeAsset)).getD 0 <
        feeAsset.amount) ∧
    (∀ b t, r = .error (.InsufficientFee b t) →
      (b : Int) = (witnessInitialAmount witness : Int) +
        (trackerAmount (witnessInitialFaucet witness feeAsset)).getD 0 ∧
      t = feeAsset.amount) ∧
    (isError r = false → r = .ok (asset_witness_to_advice_mutation witness)) := by
  obtain ⟨c, hc, hr⟩ := fee_event_core witness trackerAmount feeAsset r h
  subst hr
  by_cases hlt : c < feeAsset.amount
  · rw [if_pos hlt]
    refine ⟨iff_of_true rfl (by omega), ?_, ?_⟩
    · intro b t hbt
      cases hbt
      exact ⟨hc, rfl⟩
    · intro hfalse
      cases hfalse
  · rw [if_neg hlt]
    refine ⟨iff_of_false (by simp [isError]) (by omega), ?_, ?_⟩
    · intro b t hbt
      cases hbt
    · intro _
      rfl

/-- Witness for C6: the spec's concrete scenario of a balance of 99
against a fee of 100, yielding `InsufficientFee(99, 100)`. -/
theorem claim6_fee_event_witness :
    isError (Except.error (ε := TransactionKernelError)
        (α := List AdviceMutation)
        (.InsufficientFee 99 100)) = true ↔
      ((witnessInitialAmount ⟨some (.fungible exFaucetId 99), [], Word.empty, []⟩ : Int) +
        ((fun _ => (none : Option Int))
          (witnessInitialFaucet ⟨some (.fungible exFaucetId 99), [], Word.empty, []⟩
            ⟨exFaucetId, 100⟩)).getD 0 <
        (⟨exFaucetId, 100⟩ : FungibleAsset).amount) :=
  (claim6_fee_event ⟨some (.fungible exFaucetId 99), [], Word.empty, []⟩
    (fun _ => none) ⟨exFaucetId, 100⟩ (.error (.InsufficientFee 99 100)) (by rfl)).1

-- CLAIM C7 SUPPORT
-- ================

/-- Characterization of a successful `build_executed_transaction`: the
result is the pre-fee delta with only its vault sub-delta replaced by
the fee-removal result, and all three consistency checks passed. -/
theorem build_executed_transaction_ok_char {σ : Type}
    {commitDelta : AccountDelta σ → Word}
    {removeAsset : AccountVaultDelta → Asset → Except AssetVaultError AccountVaultDelta}
    {preFee : AccountDelta σ} {txOutputs : TransactionOutputs}
    {initialId : AccountId} {initialNonce : Felt} {d' : AccountDelta σ}
    (h : build_executed_transaction commitDelta removeAsset preFee txOutputs initialId
      initialNonce = .ok d') :
    d'.nonceDelta = preFee.nonceDelta ∧ d'.storage = preFee.storage ∧
    d'.accountId = preFee.accountId ∧
    removeAsset preFee.vault (.fungible txOutputs.fee.faucetId txOutputs.fee.amount) =
      .ok d'.vault ∧
    txOutputs.accountDeltaCommitment = commitDelta preFee ∧
    initialId = txOutputs.accountId ∧
    txOutputs.accountNonce - initialNonce = preFee.nonceDelta := by
  unfold build_executed_transaction at h
  split at h
  · cases h
  · rename_i hcom'
    split at h
    · cases h
    · rename_i vault' hrem
      split at h
      · cases h
      · rename_i hid'
        split at h
        · cases h
        · rename_i hnd'
          cases h
          exact ⟨rfl, rfl, rfl, by simpa using hrem, not_not.mp hcom',
            not_not.mp hid', not_not.mp hnd'⟩

-- CLAIM C7
-- ========

/-- C7: building the executed transaction only modifies the
host-extracted delta by removing the fee asset from its vault sub-delta,
and it fails when the kernel's delta commitment differs from the pre-fee
delta's commitment, when the final account id differs from the initial
one, or when the post-fee delta's nonce delta differs from final nonce
minus initial nonce. -/
theorem claim7_build_executed_transaction {σ : Type}
    (commitDelta : AccountDelta σ → Word)
    (removeAsset : AccountVaultDelta → Asset → Except AssetVaultError AccountVaultDelta)
    (preFee : AccountDelta σ) (txOutputs : TransactionOutputs)
    (initialId : AccountId) (initialNonce : Felt) :
    (∀ d', build_executed_transaction commitDelta removeAsset preFee txOutputs initialId
        initialNonce = .ok d' →
      d'.nonceDelta = preFee.nonceDelta ∧ d'.storage = preFee.storage ∧
      d'.accountId = preFee.accountId ∧
      removeAsset preFee.vault (.fungible txOutputs.fee.faucetId txOutputs.fee.amount) =
        .ok d'.vault ∧
      txOutputs.accountDeltaCommitment = commitDelta preFee ∧
      initialId = txOutputs.accountId ∧
      txOutputs.accountNonce - initialNonce = preFee.nonceDelta) ∧
    (txOutputs.accountDeltaCommitment ≠ commitDelta preFee →
      build_executed_transaction commitDelta removeAsset preFee txOutputs initialId
        initialNonce = .error (.InconsistentAccountDeltaCommitment
          txOutputs.accountDeltaCommitment (commitDelta preFee))) ∧
    (initialId ≠ txOutputs.accountId →
      isError (build_executed_transaction commitDelta removeAsset preFee txOutputs initialId
        initialNonce) = true) ∧
    (txOutputs.accountNonce - initialNonce ≠ preFee.nonceDelta →
      isError (build_executed_transaction commitDelta removeAsset preFee txOutputs initialId
        initialNonce) = true) := by
  refine ⟨?_, ?_, ?_, ?_⟩
  · intro d' h
    exact build_executed_transaction_ok_char h
  · intro hcom
    unfold build_executed_transaction
    split
    · rfl
    · rename_i hcom'
      exact absurd hcom hcom'
  · intro hid
    cases hb : build_executed_transaction commitDelta removeAsset preFee txOutputs initialId
        initialNonce with
    | error e => rfl
    | ok d' =>
      exact absurd (build_executed_transaction_ok_char hb).2.2.2.2.2.1 hid
  · intro hnd
    cases hb : build_executed_transaction commitDelta removeAsset preFee txOutputs initialId
        initialNonce with
    | error e => rfl
    | ok d' =>
      exact absurd (build_executed_transaction_ok_char hb).2.2.2.2.2.2 hnd

/-- Witness for C7 at a concrete run where all checks pass and the fee
removal empties the vault delta. -/
theorem claim7_build_executed_transaction_witness :
    ((⟨exAccountId, (), ⟨[(exFaucetId, 3)], []⟩, 1⟩ : AccountDelta Unit).nonceDelta =
      (⟨exAccountId, (), ⟨[(exFaucetId, 3)], []⟩, 1⟩ : AccountDelta Unit).nonceDelta) ∧
    (fun (_ : AccountVaultDelta) (_ : Asset) =>
      (.ok ⟨[], []⟩ : Except AssetVaultError AccountVaultDelta))
        (⟨exAccountId, (), ⟨[(exFaucetId, 3)], []⟩, 1⟩ : AccountDelta Unit).vault
        (.fungible exFaucetId 3) =
      .ok (⟨exAccountId, (), ⟨[], []⟩, 1⟩ : AccountDelta Unit).vault := by
  have h := (claim7_build_executed_transaction (σ := Unit) (fun _ => Word.empty)
    (fun _ _ => .ok ⟨[], []⟩) ⟨exAccountId, (), ⟨[(exFaucetId, 3)], []⟩, 1⟩
    ⟨exAccountId, 2, Word.empty, ⟨exFaucetId, 3⟩⟩ exAccountId 1).1
    ⟨exAccountId, (), ⟨[], []⟩, 1⟩ (by rfl)
  exact ⟨h.1, h.2.2.2.1⟩

/-- Witness for C10 at a vault holding 7 units of a faucet's asset, an
absent faucet, and a non-faucet id. -/
theorem claim10_get_balance_witness :
    (AssetVault.mk [(.fungible exFaucetId, .fungible exFaucetId 7)]).getBalance exFaucetId
        = .ok 7 ∧
    (AssetVault.mk []).getBalance exFaucetId = .ok 0 ∧
    isError ((AssetVault.mk []).getBalance exAccountId) = true :=
  ⟨(claim10_get_balance ⟨[(.fungible exFaucetId, .fungible exFaucetId 7)]⟩ exFaucetId).2.2.2
      exFaucetId 7 (by decide) (by decide),
   (claim10_get_balance ⟨[]⟩ exFaucetId).2.2.1 (by decide) (by decide),
   by
    have h := ((claim10_get_balance ⟨[]⟩ exAccountId).1).mp (by decide)
    rw [h]
    rfl⟩

-- ADVICE-MAP LEMMAS (C5 support)
-- ==============================

/-- Lookup after a replacing insertion: the inserted key now maps to the
new value, every other key is untouched. -/
theorem AdviceMap.get_insertEntry (m : AdviceMap) (k : Word) (v : List Felt) (k' : Word) :
    (m.insertEntry (k, v)).get k' = if k' = k then some v else m.get k' := by
  induction m with
  | nil =>
    by_cases h : k = k'
    · simp [AdviceMap.insertEntry, AdviceMap.get, h]
    · simp [AdviceMap.insertEntry, AdviceMap.get, h, Ne.symm h]
  | cons e rest ih =>
    by_cases he : e.1 = k
    · by_cases h' : k = k'
      · simp [AdviceMap.insertEntry, AdviceMap.get, he, h']
      · have he' : ¬ e.1 = k' := by
          rw [he]
          exact h'
        simp [AdviceMap.insertEntry, AdviceMap.get, he, h', Ne.symm h', he']
    · by_cases hek : e.1 = k'
      · have h' : ¬ k' = k := fun hx => he (hek.trans hx)
        simp [AdviceMap.insertEntry, AdviceMap.get, he, hek, h']
      · simp [AdviceMap.insertEntry, AdviceMap.get, he, hek, ih]

/-- A failed merge always reports a genuine conflict: the incoming value
is a binding of the merged-in entries, differs from the existing value,
and the existing value was either already in the target map or came from
an earlier merged-in entry. -/
theorem AdviceMap.merge_error_mem {e : TransactionAdviceMapMismatch} :
    ∀ {o : List (Word × List Felt)} {m : AdviceMap},
      AdviceMap.merge m o = .error e →
      e.existingVal ≠ e.incomingVal ∧ (e.key, e.incomingVal) ∈ o ∧
      (m.get e.key = some e.existingVal ∨ (e.key, e.existingVal) ∈ o) := by
  intro o
  induction o with
  | nil =>
    intro m h
    simp [AdviceMap.merge] at h
  | cons kv rest ih =>
    intro m h
    obtain ⟨k, v⟩ := kv
    unfold AdviceMap.merge at h
    split at h
    · rename_i hg
      obtain ⟨hne, hmem, hex⟩ := ih h
      refine ⟨hne, List.mem_cons_of_mem _ hmem, ?_⟩
      rcases hex with hex | hex
      · rw [AdviceMap.get_insertEntry] at hex
        by_cases hk : e.key = k
        · rw [if_pos hk] at hex
          injection hex with hv
          exact Or.inr (by rw [hk, ← hv]; exact List.mem_cons_self _ _)
        · rw [if_neg hk] at hex
          exact Or.inl hex
      · exact Or.inr (List.mem_cons_of_mem _ hex)
    · rename_i ex hg
      by_cases hv : ex = v
      · rw [if_pos hv] at h
        obtain ⟨hne, hmem, hex⟩ := ih h
        refine ⟨hne, List.mem_cons_of_mem _ hmem, ?_⟩
        rcases hex with hex | hex
        · exact Or.inl hex
        · exact Or.inr (List.mem_cons_of_mem _ hex)
      · rw [if_neg hv] at h
        cases h
        exact ⟨hv, List.mem_cons_self _ _, Or.inl hg⟩

/-- A merge whose incoming entries have distinct keys and agree with the
target wherever a key is already bound never fails. -/
theorem AdviceMap.merge_ok_of_compat :
    ∀ {o : List (Word × List Felt)} {m : AdviceMap},
      (∀ kv ∈ o, ∀ ex, m.get kv.1 = some ex → ex = kv.2) →
      (o.map Prod.fst).Nodup → isError (AdviceMap.merge m o) = false := by
  intro o
  induction o with
  | nil =>
    intro m _ _
    rfl
  | cons kv rest ih =>
    intro m hcompat hnodup
    obtain ⟨k, v⟩ := kv
    have hnodup' : (k :: rest.map Prod.fst).Nodup := by simpa using hnodup
    unfold AdviceMap.merge
    split
    · rename_i hg
      apply ih
      · intro kv' hkv' ex hex
        rw [AdviceMap.get_insertEntry] at hex
        by_cases hk : kv'.1 = k
        · exfalso
          have hmem : k ∈ rest.map Prod.fst := by
            rw [← hk]
            exact List.mem_map_of_mem _ hkv'
          exact (List.nodup_cons.mp hnodup').1 hmem
        · rw [if_neg hk] at hex
          exact hcompat kv' (List.mem_cons_of_mem _ hkv') ex hex
      · exact (List.nodup_cons.mp hnodup').2
    · rename_i ex hg
      have hv : ex = v := hcompat (k, v) (List.mem_cons_self _ _) ex hg
      rw [if_pos hv]
      apply ih
      · intro kv' hkv' ex' hex'
        exact hcompat kv' (List.mem_cons_of_mem _ hkv') ex' hex'
      · exact (List.nodup_cons.mp hnodup').2

/-- A failing note loop fails inside the merge of some note's script
advice map. -/
theorem addNotesLoop_error {e : TransactionAdviceMapMismatch} :
    ∀ {notes : List NoteSource} {m : AdviceMap},
      TransactionAdviceInputs.addNotesLoop m notes = .error e →
      ∃ m' n, n ∈ notes ∧ AdviceMap.merge m' n.scriptAdviceMap = .error e := by
  intro notes
  induction notes with
  | nil =>
    intro m h
    simp [TransactionAdviceInputs.addNotesLoop] at h
  | cons n rest ih =>
    intro m h
    unfold TransactionAdviceInputs.addNotesLoop at h
    dsimp only at h
    split at h
    · rename_i hm
      cases h
      exact ⟨_, n, List.mem_cons_self _ _, hm⟩
    · rename_i m₂ hm
      obtain ⟨m', n', hn', hmerge⟩ := ih h
      exact ⟨m', n', List.mem_cons_of_mem _ hn', hmerge⟩

/-- A failing `add_input_notes` fails inside the merge of some note's
script advice map. -/
theorem addInputNotes_error {m : AdviceMap} {notes : List NoteSource}
    {blob : Word × List Felt} {e : TransactionAdviceMapMismatch}
    (h : TransactionAdviceInputs.addInputNotes m notes blob = .error e) :
    ∃ m' n, n ∈ notes ∧ AdviceMap.merge m' n.scriptAdviceMap = .error e := by
  unfold TransactionAdviceInputs.addInputNotes at h
  split at h
  · cases h
  · split at h
    · rename_i hm
      cases h
      exact addNotesLoop_error hm
    · cases h

/-- A failing `add_account` fails inside the merge of the account code's
advice map. -/
theorem addAccount_error {m : AdviceMap} {acc : AccountSource}
    {e : TransactionAdviceMapMismatch}
    (h : TransactionAdviceInputs.addAccount m acc = .error e) :
    AdviceMap.merge (m.insertEntry acc.codeEntry) acc.codeAdviceMap = .error e := by
  unfold TransactionAdviceInputs.addAccount at h
  dsimp only at h
  split at h
  · rename_i hm
    cases h
    exact hm
  · cases h

/-- A failing `add_foreign_accounts` fails inside the merge of some
foreign account code's advice map. -/
theorem addForeignAccounts_error {e : TransactionAdviceMapMismatch} :
    ∀ {fas : List ForeignAccountSource} {m : AdviceMap},
      TransactionAdviceInputs.addForeignAccounts m fas = .error e →
      ∃ m' fa, fa ∈ fas ∧ AdviceMap.merge m' fa.account.codeAdviceMap = .error e := by
  intro fas
  induction fas with
  | nil =>
    intro m h
    simp [TransactionAdviceInputs.addForeignAccounts] at h
  | cons fa rest ih =>
    intro m h
    unfold TransactionAdviceInputs.addForeignAccounts at h
    split at h
    · rename_i hacc
      cases h
      exact ⟨_, fa, List.mem_cons_self _ _, addAccount_error hacc⟩
    · rename_i m₂ hacc
      obtain ⟨m', fa', hfa', hmerge⟩ := ih h
      exact ⟨m', fa', List.mem_cons_of_mem _ hfa', hmerge⟩

/-- A failing `TransactionAdviceInputs::new` fails inside the merge of a
code advice map (of the native account or a foreign account) or of a
note script's advice map; the extend-based additions of all other
sources never fail. -/
theorem txadvice_error_from_merge {src : TxAdviceSources} {e : TransactionAdviceMapMismatch}
    (h : TransactionAdviceInputs.new src = .error e) :
    (∃ m, AdviceMap.merge m src.nativeAccount.codeAdviceMap = .error e) ∨
    (∃ m n, n ∈ src.notes ∧ AdviceMap.merge m n.scriptAdviceMap = .error e) ∨
    (∃ m fa, fa ∈ src.foreignAccounts ∧
      AdviceMap.merge m fa.account.codeAdviceMap = .error e) := by
  unfold TransactionAdviceInputs.new at h
  dsimp only at h
  split at h
  · rename_i hnotes
    cases h
    obtain ⟨m', n, hn, hmerge⟩ := addInputNotes_error hnotes
    exact Or.inr (Or.inl ⟨m', n, hn, hmerge⟩)
  · rename_i m₁ hnotes
    try dsimp only at h
    split at h
    · rename_i hacc
      cases h
      exact Or.inl ⟨_, addAccount_error hacc⟩
    · rename_i m₂ hacc
      try dsimp only at h
      split at h
      · rename_i hfa
        cases h
        obtain ⟨m', fa, hfa', hmerge⟩ := addForeignAccounts_error hfa
        exact Or.inr (Or.inr ⟨m', fa, hfa', hmerge⟩)
      · cases h

-- CLAIM C5
-- ========

/-- C5 (amended): a conflicting-advice-map-entry error is raised only by
the conflict-checked merges of the pipeline — the account-code advice
maps (native and foreign) and the note-script advice maps — and such a
merge fails exactly when an incoming key is bound to a different value
at that point, the error carrying the key with both values; entries from
every other source are inserted with replacement, so the last written
value is kept and no error is raised for them. -/
theorem claim5_advice_map_conflicts :
    (∀ (m : AdviceMap) (o : List (Word × List Felt)) e,
      AdviceMap.merge m o = .error e →
        e.existingVal ≠ e.incomingVal ∧ (e.key, e.incomingVal) ∈ o ∧
        (m.get e.key = some e.existingVal ∨ (e.key, e.existingVal) ∈ o)) ∧
    (∀ (m : AdviceMap) (o : List (Word × List Felt)),
      (∀ kv ∈ o, ∀ ex, m.get kv.1 = some ex → ex = kv.2) →
      (o.map Prod.fst).Nodup → isError (AdviceMap.merge m o) = false) ∧
    (∀ (m : AdviceMap) (k : Word) (v : List Felt),
      (m.insertEntry (k, v)).get k = some v) ∧
    (∀ src e, TransactionAdviceInputs.new src = .error e →
      (∃ m, AdviceMap.merge m src.nativeAccount.codeAdviceMap = .error e) ∨
      (∃ m n, n ∈ src.notes ∧ AdviceMap.merge m n.scriptAdviceMap = .error e) ∨
      (∃ m fa, fa ∈ src.foreignAccounts ∧
        AdviceMap.merge m fa.account.codeAdviceMap = .error e)) := by
  refine ⟨?_, ?_, ?_, ?_⟩
  · intro m o e h
    exact AdviceMap.merge_error_mem h
  · intro m o hcompat hnodup
    exact AdviceMap.merge_ok_of_compat hcompat hnodup
  · intro m k v
    rw [AdviceMap.get_insertEntry]
    rw [if_pos rfl]
  · intro src e h
    exact txadvice_error_from_merge h

/-- Showing C5 false as stated: the tx-inputs advice map and the
transaction script's advice map are two sources binding the same key to
different values, yet `TransactionAdviceInputs::new` succeeds and keeps
the later writer's value — no conflicting-advice-map-entry error is
raised. -/
theorem claim5_conflict_counterexample :
    TransactionAdviceInputs.new
      ⟨[(⟨1, 1, 1, 1⟩, [1])], (⟨2, 0, 0, 0⟩, []), (⟨3, 0, 0, 0⟩, []), [],
        (⟨4, 0, 0, 0⟩, []), some [(⟨1, 1, 1, 1⟩, [2])],
        ⟨(⟨5, 0, 0, 0⟩, []), [], (⟨6, 0, 0, 0⟩, []), [], []⟩, none, [], []⟩ =
      .ok [(⟨1, 1, 1, 1⟩, [2]), (⟨2, 0, 0, 0⟩, []), (⟨3, 0, 0, 0⟩, []),
        (⟨5, 0, 0, 0⟩, []), (⟨6, 0, 0, 0⟩, [])] ∧
    AdviceMap.get [(⟨1, 1, 1, 1⟩, [2]), (⟨2, 0, 0, 0⟩, []), (⟨3, 0, 0, 0⟩, []),
        (⟨5, 0, 0, 0⟩, []), (⟨6, 0, 0, 0⟩, [])] ⟨1, 1, 1, 1⟩ = some [2] ∧
    AdviceMap.get [((⟨1, 1, 1, 1⟩ : Word), ([1] : List Felt))] ⟨1, 1, 1, 1⟩ = some [1] :=
  ⟨rfl, rfl, rfl⟩

/-- Witness for C5 (amended) at a concrete conflicting merge reported
with the key, the existing value and the incoming value. -/
theorem claim5_advice_map_conflicts_witness :
    (([1] : List Felt) ≠ [2] ∧
      ((⟨9, 9, 9, 9⟩ : Word), ([2] : List Felt)) ∈
        [((⟨9, 9, 9, 9⟩ : Word), ([2] : List Felt))] ∧
      (AdviceMap.get [((⟨9, 9, 9, 9⟩ : Word), ([1] : List Felt))] ⟨9, 9, 9, 9⟩ =
          some [1] ∨
        ((⟨9, 9, 9, 9⟩ : Word), ([1] : List Felt)) ∈
          [((⟨9, 9, 9, 9⟩ : Word), ([2] : List Felt))])) :=
  claim5_advice_map_conflicts.1 [((⟨9, 9, 9, 9⟩ : Word), [1])]
    [((⟨9, 9, 9, 9⟩ : Word), [2])] ⟨⟨9, 9, 9, 9⟩, [1], [2]⟩ rfl

end Miden
